import Mathlib

/-!
Verification development for the Ising microstructure simulator (`ising.py`).

The Python module is embedded shallowly:

* `State` values are natural numbers (the code stores the ints `0`/`1` and,
  after a flip, the Python booleans `True`/`False`; since every use compares
  with `==` where `True == 1` and `False == 0`, booleans are represented by
  their integer values).
* Python subscripting `l[i]` is `pyget`: negative indices wrap from the end,
  an index outside `[-len, len)` raises `IndexError`, modelled as `none`.
* The global random stream of the `random` module is `RNG`: an infinite
  stream of naturals backing `randint` and an infinite stream of rationals
  backing `random()`, each with a cursor.
* `math.exp` is an uninterpreted parameter `pexp : ℚ → ℚ`; none of the
  verified properties depend on the values of the exponential.
* Fallible code (out-of-bounds subscripts, `NameError` on the undefined
  module global `k`, `ZeroDivisionError`) returns `Option`, with `none` for
  a raised exception.
-/

abbrev State := Nat

abbrev Site := Nat × Nat

abbrev System := List (List State)

/-- Model of the process-wide random source: a stream of naturals consumed by
`randint` and a stream of rationals consumed by `random()`, with cursors. -/
structure RNG where
  ints : Nat → Nat
  units : Nat → ℚ
  i : Nat
  u : Nat

/-- Consume one value from the integer stream. -/
def next_int (g : RNG) : Nat × RNG :=
  (g.ints g.i, ⟨g.ints, g.units, g.i + 1, g.u⟩)

/-- Model of `randint(0, m-1)`: a uniform draw from `{0, …, m-1}`.
`randint(0, -1)` (i.e. `m = 0`) raises `ValueError`, modelled as `none`. -/
def randint0 (m : Nat) (g : RNG) : Option (Nat × RNG) :=
  if m = 0 then none else some ((next_int g).1 % m, (next_int g).2)

/-- Model of `random()`: consume one value from the rational stream. -/
def pyrandom (g : RNG) : ℚ × RNG :=
  (g.units g.u, ⟨g.ints, g.units, g.i, g.u + 1⟩)

/-- Python subscript `l[i]`: negative indices wrap once from the end, and an
index outside `[-len l, len l)` raises `IndexError` (`none`). -/
def pyget {α : Type} (l : List α) (i : ℤ) : Option α :=
  if 0 ≤ i then l.get? i.toNat
  else if -(l.length : ℤ) ≤ i then l.get? (i + l.length).toNat
  else none

/-- The nested subscript `sys[r][c]`. -/
def pyget2 (sys : System) (r c : ℤ) : Option State :=
  (pyget sys r).bind fun row => pyget row c

/-- Python `not s` for a lattice value, re-encoded as the integer value of the
resulting boolean (`not 0 = True == 1`, `not s = False == 0` for `s ≠ 0`). -/
def pyNot (s : State) : State :=
  if s = 0 then 1 else 0

/-- Total in-bounds read `sys[r][c]` used on the specification side. -/
def cell (sys : System) (r c : Nat) : State :=
  (sys.getD r []).getD c 0

/-- The single-site store `sys[r][c] = v` (always reached with in-bounds
indices, which is proved where it is used). -/
def set2 (sys : System) (r c : Nat) (v : State) : System :=
  sys.set r ((sys.getD r []).set c v)

/-- Predicate: `sys` is a rectangular `h × w` grid. -/
def Rect (sys : System) (h w : Nat) : Prop :=
  sys.length = h ∧ ∀ row ∈ sys, row.length = w

/-- One row of `intialize_system` (sic): `randint(0,1)` draws, left to right. -/
def init_row (w : Nat) (g : RNG) : List State × RNG :=
  match w with
  | 0 => ([], g)
  | n + 1 =>
    let (v, g1) := next_int g
    let (rest, g2) := init_row n g1
    (v % 2 :: rest, g2)

/-- Rows of `intialize_system`, appended top to bottom. -/
def init_rows (h w : Nat) (g : RNG) : System × RNG :=
  match h with
  | 0 => ([], g)
  | n + 1 =>
    let (row, g1) := init_row w g
    let (rest, g2) := init_rows n w g1
    (row :: rest, g2)

/-- Model of `intialize_system(h, w)` from the source: returns `[]` when `h == 0` or
`w == 0`, otherwise an `h × w` grid of independent `randint(0,1)` draws. -/
def intialize_system (h w : Nat) (g : RNG) : System × RNG :=
  if h = 0 ∨ w = 0 then ([], g) else init_rows h w g

/-- Model of `random_site(h, w)` from the source:
`return (randint(0,h-1), randint(0,w-1))`, the two draws made left to right. -/
def random_site (h w : Nat) (g : RNG) : Option (Site × RNG) := do
  let (a, g1) ← randint0 h g
  let (b, g2) ← randint0 w g1
  pure ((a, b), g2)

/-- Model of `random_state()` from the source: `randint(0, 1)` (never fails). -/
def random_state (g : RNG) : Option (State × RNG) :=
  randint0 2 g

/-- A Python list literal of subscript reads `sys[r][c]`, evaluated left to
right; the first out-of-range subscript raises. -/
def reads (sys : System) : List (ℤ × ℤ) → Option (List State)
  | [] => some []
  | rc :: rest => do
    let v ← pyget2 sys rc.1 rc.2
    let vs ← reads sys rest
    pure (v :: vs)

/-- Model of `neighbour_states(sys, site)` from the source, branch for branch. The
local variables `h = len(sys) - 1` and `w = len(sys[0]) - 1` are the maximal
row/column indices; evaluating `len(sys[0])` on an empty grid raises. -/
def neighbour_states (sys : System) (site : Site) : Option (List State) := do
  let row0 ← pyget sys 0
  let h : ℤ := (sys.length : ℤ) - 1
  let w : ℤ := (row0.length : ℤ) - 1
  let x : ℤ := site.1
  let y : ℤ := site.2
  if x = 0 ∧ y = 0 then
    reads sys [(0, 1), (1, 0), (1, 1)]
  else if x = w ∧ y = 0 then
    reads sys [(0, w - 1), (1, w - 1), (1, w)]
  else if x = 0 ∧ y = h then
    reads sys [(h - 1, 0), (h - 1, 1), (h, 1)]
  else if x = w ∧ y = h then
    reads sys [(h - 1, w - 1), (h - 1, w), (h, w - 1)]
  else if y = 0 then
    reads sys [(0, x - 1), (0, x + 1), (1, x - 1), (1, x), (1, x + 1)]
  else if y = h then
    reads sys [(h - 1, x - 1), (h - 1, x), (h - 1, x + 1), (h, x - 1), (h, x + 1)]
  else if x = 0 then
    reads sys [(y - 1, 0), (y - 1, 1), (y, 1), (y + 1, 0), (y + 1, 1)]
  else if x = w then
    reads sys [(y - 1, w - 1), (y - 1, w), (y, w - 1), (y + 1, w - 1), (y + 1, w)]
  else
    reads sys [(y - 1, x - 1), (y - 1, x), (y - 1, x + 1), (y, x - 1), (y, x + 1),
      (y + 1, x - 1), (y + 1, x), (y + 1, x + 1)]

/-- Model of `like_neighbours(sys, site, state)` from the source:
`neighbour_states(sys, site).count(state)`. -/
def like_neighbours (sys : System) (site : Site) (state : State) : Option Nat :=
  (neighbour_states sys site).map fun ns => ns.count state

/-- Model of `energy_difference(sys, site)` from the source. -/
def energy_difference (sys : System) (site : Site) : Option ℤ := do
  let spin_old ← pyget2 sys site.2 site.1
  let spin_new := pyNot spin_old
  let likes_old ← like_neighbours sys site spin_old
  let likes_new ← like_neighbours sys site spin_new
  pure ((likes_old : ℤ) - likes_new)

/-- Model of `successful_swap(delta_E, T)` from the source. `gk` is the binding of the
module-global name `k` read inside the function body (`k` is assigned only in
the `__main__` block; `gk = none` is the imported-module scenario, where the
lookup raises `NameError`). A zero denominator `k * T` raises
`ZeroDivisionError`. `pexp` models `math.exp`. On the `T > 0` path one value
is consumed from the `random()` stream whether or not the swap is accepted. -/
def successful_swap (pexp : ℚ → ℚ) (gk : Option ℚ) (delta_E : ℤ) (T : ℚ)
    (g : RNG) : Option (Bool × RNG) :=
  if delta_E ≤ 0 then some (true, g)
  else if 0 < T then
    match gk with
    | none => none
    | some k =>
      if k * T = 0 then none
      else
        let (u, g1) := pyrandom g
        if u < pexp (-(delta_E : ℚ) / (k * T)) then some (true, g1)
        else some (false, g1)
  else some (false, g)

/-- Modelled from the spec (§4.2): the scan offsets of the clipped row-major
scan, rows `-1..1` and within each row columns `-1..1`, in increasing order. -/
def scan_offsets : List (ℤ × ℤ) :=
  (List.range 3).flatMap fun i => (List.range 3).map fun j => ((i : ℤ) - 1, (j : ℤ) - 1)

/-- Modelled from the spec (§4.2): scan rows from `row-1` to `row+1` and,
within each row, columns from `column-1` to `column+1` in increasing order,
skipping the center cell and any (row, column) outside `[0,height) × [0,width)`. -/
def clipped_neighbours (sys : System) (site : Site) : List State :=
  let h : ℤ := sys.length
  let w : ℤ := (sys.headD []).length
  let x : ℤ := site.1
  let y : ℤ := site.2
  scan_offsets.filterMap fun d =>
    let r := y + d.1
    let c := x + d.2
    if (¬(r = y ∧ c = x)) ∧ 0 ≤ r ∧ r < h ∧ 0 ≤ c ∧ c < w then
      some (cell sys r.toNat c.toNat)
    else none

/-- A concrete all-zero random source, used to instantiate witnesses. -/
def rng0 : RNG :=
  ⟨fun _ => 0, fun _ => 0, 0, 0⟩

/-- A concrete all-one random source, used for explicit failing inputs. -/
def rng1 : RNG :=
  ⟨fun _ => 1, fun _ => 0, 0, 0⟩

/-- Simulation parameters threaded through the sweep loop: the lattice
extent, the temperature argument `T`, the binding of the module-global `k`
consulted by `successful_swap`, and the model of `math.exp`. -/
structure Params where
  h : Nat
  w : Nat
  T : ℚ
  gk : Option ℚ
  pexp : ℚ → ℚ

/-- One attempted update of the sweep loop, up to but not including the state
mutation: draw a site, draw a proposed state, read the current value, and
decide the flip. `none` is a raised exception; otherwise the result is the
accepted write `some (x, y, v)` (or `none` for a rejected or no-op update)
together with the advanced random source. -/
def sweep_act (P : Params) (sys : System) (g : RNG) :
    Option (Option (Nat × Nat × State) × RNG) := do
  let (site, g1) ← random_site P.h P.w g
  let (state, g2) ← random_state g1
  let cur ← pyget2 sys site.2 site.1
  if state ≠ cur then do
    let delta_E ← energy_difference sys site
    let (acc, g3) ← successful_swap P.pexp P.gk delta_E P.T g2
    if acc then pure (some (site.1, site.2, pyNot cur), g3)
    else pure (none, g3)
  else pure (none, g2)

/-- The sweep-loop state: the live lattice, the captured snapshots, the
attempted-update counter `timestep`, and the random source. -/
structure SimState where
  sys : System
  snapshots : List System
  timestep : Nat
  g : RNG

/-- One iteration of the `while` loop of `run_simulation`: one attempted
update, the counter increment, and the periodic snapshot capture. On values,
`deepcopy` is the identity; the aliasing content of `deepcopy` is treated in
the heap model further down. -/
def sweep_step (P : Params) (st : SimState) : Option SimState := do
  let (act, g') ← sweep_act P st.sys st.g
  let sys' := match act with
    | none => st.sys
    | some (x, y, v) => set2 st.sys y x v
  let t := st.timestep + 1
  let snaps := if t % (P.w * P.h * 10) = 0 then st.snapshots ++ [sys'] else st.snapshots
  pure ⟨sys', snaps, t, g'⟩

/-- Run `n` further iterations of the sweep loop. -/
def steps (P : Params) : Nat → SimState → Option SimState
  | 0, st => some st
  | n + 1, st => (sweep_step P st).bind (steps P n)

/-- The loop state of `run_simulation` on entry to the `while` loop: the
initial lattice and the snapshot taken immediately before the loop. -/
def initState (sys0 : System) (g : RNG) : SimState :=
  ⟨sys0, [sys0], 0, g⟩

/-- Model of `animate_sim(snapshots, save)`: displays or saves the animation; it has no
observable effect on the simulation data and returns `None`. -/
def animate_sim (snapshots : List System) (save : Bool) : Unit :=
  ()

/-- Model of `run_simulation(h, w, k, T, max_mcs, initial_sys, save_animation)` from
the source, parameters in the source's order. The parameter `k` is not used
by the body: the `k` consulted inside `successful_swap` is the module global
`gk`. The outer `Option` distinguishes raising from completing; the inner
value is the Python return value — the body has no `return` statement, so a
completed call returns `None`, never the snapshot list. -/
def run_simulation (h w : Nat) (k T : ℚ) (max_mcs : Nat)
    (initial_sys : Option System) (save_animation : Bool) (gk : Option ℚ)
    (pexp : ℚ → ℚ) (g : RNG) : Option (Option (List System)) := do
  let (sys0, g1) := match initial_sys with
    | none => intialize_system h w g
    | some s => (s, g)
  let P : Params := ⟨h, w, T, gk, pexp⟩
  let st ← steps P (max_mcs * w * h) (initState sys0 g1)
  let _ := animate_sim st.snapshots save_animation
  pure none


/-- Conditions under which `successful_swap` cannot raise: either the sampler
never enters its `T > 0` branch, or the module-global `k` is bound and
nonzero. -/
def SwapTotal (P : Params) : Prop :=
  P.T ≤ 0 ∨ ∃ kv, P.gk = some kv ∧ kv ≠ 0


/-- The Python object store at row granularity: the heap holds the row
objects, addressed by index. A grid value is a list of row addresses; this
is the level at which the single-site store `sys[y][x] = v` mutates and at
which `deepcopy` copies. -/
abbrev Heap := List (List State)

/-- A Python grid object: the list of addresses of its row objects. -/
abbrev SysRef := List Nat

/-- Dereference one row address. -/
def readRow (H : Heap) (a : Nat) : List State :=
  H.getD a []

/-- Read the whole grid behind a reference. -/
def readSys (H : Heap) (r : SysRef) : System :=
  r.map (readRow H)

/-- Allocate fresh row objects holding `rows` at the end of the heap. -/
def allocRows (H : Heap) (rows : System) : Heap × SysRef :=
  (H ++ rows, List.range' H.length rows.length)

/-- Model of `deepcopy(sys)`: fresh row objects with copied contents (and a fresh
outer list of addresses). -/
def deepcopyH (H : Heap) (r : SysRef) : Heap × SysRef :=
  allocRows H (readSys H r)

/-- The store `sys[y][x] = v` through reference `r`: mutate row object
`r[y]` in place. -/
def setSite (H : Heap) (r : SysRef) (y x : Nat) (v : State) : Heap :=
  H.set (r.getD y 0) ((readRow H (r.getD y 0)).set x v)

/-- The heap-level sweep-loop state: the heap, the live grid reference, the
captured snapshot references, the attempted-update counter, and the random
source. -/
structure HState where
  H : Heap
  r : SysRef
  snaps : List SysRef
  timestep : Nat
  g : RNG

/-- One loop iteration at heap level: the same attempted update as
`sweep_step`, but the flip mutates the row object in place and the snapshot
is captured by `deepcopy`. -/
def hstep (P : Params) (st : HState) : Option HState := do
  let (act, g') ← sweep_act P (readSys st.H st.r) st.g
  let H1 := match act with
    | none => st.H
    | some (x, y, v) => setSite st.H st.r y x v
  let t := st.timestep + 1
  if t % (P.w * P.h * 10) = 0 then
    let (H2, snew) := deepcopyH H1 st.r
    pure ⟨H2, st.r, st.snaps ++ [snew], t, g'⟩
  else
    pure ⟨H1, st.r, st.snaps, t, g'⟩

/-- Run `n` heap-level iterations. -/
def hsteps (P : Params) : Nat → HState → Option HState
  | 0, st => some st
  | n + 1, st => (hstep P st).bind (hsteps P n)

/-- The heap-level state of `run_simulation` on entry to the loop when the
caller supplies `initial_sys`: the engine aliases the caller's reference `r`
itself (no copy) and takes the initial `deepcopy` snapshot. -/
def hinit (H : Heap) (r : SysRef) (g : RNG) : HState :=
  ⟨(deepcopyH H r).1, r, [(deepcopyH H r).2], 0, g⟩

/-- A caller's grid holding `sys0`, allocated in an empty heap, handed to the
engine: the loop-entry heap state of a run on that grid. -/
def hinit0 (sys0 : System) (g : RNG) : HState :=
  hinit (allocRows [] sys0).1 (allocRows [] sys0).2 g

/-- Well-formedness of a heap state: the live reference has no duplicate row
addresses, every address is allocated, and no snapshot shares a row address
with the live grid. -/
def WF (st : HState) : Prop :=
  st.r.Nodup ∧ (∀ a ∈ st.r, a < st.H.length) ∧
  (∀ s ∈ st.snaps, ∀ a ∈ s, a < st.H.length) ∧
  (∀ s ∈ st.snaps, ∀ a ∈ s, a ∉ st.r)

/-- The heap run simulates the value-level run: the live grid and every
captured snapshot read back as the value-level lattice and snapshots. -/
def Sim (hst : HState) (pst : SimState) : Prop :=
  readSys hst.H hst.r = pst.sys ∧
  hst.snaps.map (readSys hst.H) = pst.snapshots ∧
  hst.timestep = pst.timestep ∧ hst.g = pst.g ∧ WF hst


/-- When the index is in range, `l.get? n` is `some` of the default-read. -/
theorem get?_eq_some_getD {α : Type} (l : List α) (n : Nat) (d : α)
    (h : n < l.length) : l.get? n = some (l.getD n d) := by
  induction l generalizing n with
  | nil => simp at h
  | cons a t ih =>
    cases n with
    | zero => rfl
    | succ m => simpa using ih m (by simpa using h)

/-- An in-range default-read is a member of the list. -/
theorem getD_mem_of_lt {α : Type} (l : List α) (n : Nat) (d : α)
    (h : n < l.length) : l.getD n d ∈ l := by
  induction l generalizing n with
  | nil => simp at h
  | cons a t ih =>
    cases n with
    | zero => exact List.mem_cons_self a t
    | succ m => exact List.mem_cons_of_mem _ (ih m (by simpa using h))

/-- A Python subscript with a nonnegative in-range index succeeds. -/
theorem pyget_in {α : Type} (l : List α) (i : ℤ) (d : α) (h0 : 0 ≤ i)
    (hl : i < (l.length : ℤ)) : pyget l i = some (l.getD i.toNat d) := by
  unfold pyget
  rw [if_pos h0, get?_eq_some_getD l i.toNat d (by omega)]

/-- Every row of a rectangular grid has length `w`. -/
theorem row_len {sys : System} {h w : Nat} (R : Rect sys h w) {r : Nat}
    (hr : r < h) : (sys.getD r []).length = w := by
  have hlen : sys.length = h := R.1
  exact R.2 _ (getD_mem_of_lt sys r [] (by omega))

/-- The head of a nonempty rectangular grid has length `w`. -/
theorem head_len {sys : System} {h w : Nat} (R : Rect sys h w) (hh : 1 ≤ h) :
    (sys.headD []).length = w := by
  cases sys with
  | nil => exact absurd R.1 (by simp; omega)
  | cons r t => exact R.2 r (List.mem_cons_self r t)

/-- An in-bounds nested subscript `sys[r][c]` succeeds and reads `cell`. -/
theorem pyget2_cell {sys : System} {h w : Nat} (R : Rect sys h w) {r c : ℤ}
    (hr0 : 0 ≤ r) (hrh : r < (h : ℤ)) (hc0 : 0 ≤ c) (hcw : c < (w : ℤ)) :
    pyget2 sys r c = some (cell sys r.toNat c.toNat) := by
  have hlen : sys.length = h := R.1
  have hrow : pyget sys r = some (sys.getD r.toNat []) :=
    pyget_in sys r [] hr0 (by omega)
  have hwlen : (sys.getD r.toNat []).length = w := row_len R (by omega)
  unfold pyget2 cell
  rw [hrow]
  exact pyget_in _ c 0 hc0 (by omega)

/-- A list literal of in-bounds subscript reads evaluates to its `cell`s. -/
theorem reads_eq (sys : System) {h w : Nat} (R : Rect sys h w)
    (l : List (ℤ × ℤ))
    (hb : ∀ p ∈ l, 0 ≤ p.1 ∧ p.1 < (h : ℤ) ∧ 0 ≤ p.2 ∧ p.2 < (w : ℤ)) :
    reads sys l = some (l.map fun p => cell sys p.1.toNat p.2.toNat) := by
  induction l with
  | nil => rfl
  | cons a t ih =>
    obtain ⟨h1, h2, h3, h4⟩ := hb a (List.mem_cons_self a t)
    have ha : pyget2 sys a.1 a.2 = some (cell sys a.1.toNat a.2.toNat) :=
      pyget2_cell R h1 h2 h3 h4
    have ht := ih fun p hp => hb p (List.mem_cons_of_mem a hp)
    simp [reads, ha, ht]

/-- The scan offsets, evaluated. -/
theorem scan_offsets_eq :
    scan_offsets = [(-1, -1), (-1, 0), (-1, 1), (0, -1), (0, 0), (0, 1),
      (1, -1), (1, 0), (1, 1)] := by
  decide

/-- Top-left corner branch of `neighbour_states`, evaluated. -/
theorem nb_topleft {sys : System} {h w : Nat} (R : Rect sys h w)
    (hh : 2 ≤ h) (hw : 2 ≤ w) :
    neighbour_states sys (0, 0) =
      some [cell sys 0 1, cell sys 1 0, cell sys 1 1] := by
  have hlen : sys.length = h := R.1
  have hrow0 : pyget sys 0 = some (sys.getD 0 []) :=
    pyget_in sys 0 [] le_rfl (by omega)
  have hrd := reads_eq sys R [(0, 1), (1, 0), (1, 1)]
    (by intro p hp; fin_cases hp <;> refine ⟨by omega, by omega, by omega, by omega⟩)
  unfold neighbour_states
  rw [hrow0]
  simpa using hrd

/-- Top-left corner of the clipped scan, evaluated. -/
theorem cl_topleft {sys : System} {h w : Nat} (R : Rect sys h w)
    (hh : 2 ≤ h) (hw : 2 ≤ w) :
    clipped_neighbours sys (0, 0) =
      [cell sys 0 1, cell sys 1 0, cell sys 1 1] := by
  have hlen : sys.length = h := R.1
  have hw0 : (sys.headD []).length = w := head_len R (by omega)
  simp only [clipped_neighbours, scan_offsets_eq, hlen, hw0]
  simp [List.filterMap, show 0 < h by omega, show 0 < w by omega,
    show 1 < h by omega, show 1 < w by omega]

/-- Unfolding `filterMap` over a cons, phrased with `Option.toList`. -/
theorem filterMap_cons_toList {α β : Type} (f : α → Option β) (a : α)
    (l : List α) :
    List.filterMap f (a :: l) = (f a).toList ++ List.filterMap f l := by
  cases h : f a <;> simp [h]

/-- Top-right corner branch of `neighbour_states`, evaluated. -/
theorem nb_topright {sys : System} {h w : Nat} (R : Rect sys h w)
    (hh : 2 ≤ h) (hw : 2 ≤ w) :
    neighbour_states sys (w - 1, 0) =
      some [cell sys 0 (w - 2), cell sys 1 (w - 2), cell sys 1 (w - 1)] := by
  have hlen : sys.length = h := R.1
  have hrow0 : pyget sys 0 = some (sys.getD 0 []) :=
    pyget_in sys 0 [] le_rfl (by omega)
  have hwl : (sys.getD 0 []).length = w := row_len R (by omega)
  have hrd := reads_eq sys R [((0 : ℤ), (w : ℤ) - 1 - 1),
      (1, (w : ℤ) - 1 - 1), (1, (w : ℤ) - 1)]
    (by intro p hp; fin_cases hp <;> exact ⟨by omega, by omega, by omega, by omega⟩)
  have t1 : ((w : ℤ) - 1 - 1).toNat = w - 2 := by omega
  have t2 : ((w : ℤ) - 1).toNat = w - 1 := by omega
  unfold neighbour_states
  rw [hrow0]
  simp only [Option.bind_eq_bind, Option.some_bind, hlen, hwl]
  split_ifs <;> first
    | (exfalso; omega)
    | (rw [hrd]; simp [t1, t2])

/-- Top-right corner of the clipped scan, evaluated. -/
theorem cl_topright {sys : System} {h w : Nat} (R : Rect sys h w)
    (hh : 2 ≤ h) (hw : 2 ≤ w) :
    clipped_neighbours sys (w - 1, 0) =
      [cell sys 0 (w - 2), cell sys 1 (w - 2), cell sys 1 (w - 1)] := by
  have hlen : sys.length = h := R.1
  have hw0 : (sys.headD []).length = w := head_len R (by omega)
  have hcast : ((w - 1 : ℕ) : ℤ) = (w : ℤ) - 1 := by omega
  have t1 : ((w : ℤ) - 1 - 1).toNat = w - 2 := by omega
  have t2 : ((w : ℤ) - 1).toNat = w - 1 := by omega
  simp only [clipped_neighbours, scan_offsets_eq, hlen, hw0, hcast,
    Nat.cast_zero, Nat.cast_one, filterMap_cons_toList, List.filterMap_nil]
  norm_num
  simp [show 0 < h by omega, show 1 < h by omega, show 1 ≤ w by omega,
    show (1 : ℤ) ≤ (w : ℤ) - 1 by omega,
    show (w : ℤ) - 1 < (w : ℤ) + 1 by omega,
    show ((w : ℤ) - 1 + -1).toNat = w - 2 by omega]

/-- Bottom-left corner branch of `neighbour_states`, evaluated. -/
theorem nb_bottomleft {sys : System} {h w : Nat} (R : Rect sys h w)
    (hh : 2 ≤ h) (hw : 2 ≤ w) :
    neighbour_states sys (0, h - 1) =
      some [cell sys (h - 2) 0, cell sys (h - 2) 1, cell sys (h - 1) 1] := by
  have hlen : sys.length = h := R.1
  have hrow0 : pyget sys 0 = some (sys.getD 0 []) :=
    pyget_in sys 0 [] le_rfl (by omega)
  have hwl : (sys.getD 0 []).length = w := row_len R (by omega)
  have hrd := reads_eq sys R [((h : ℤ) - 1 - 1, 0),
      ((h : ℤ) - 1 - 1, 1), ((h : ℤ) - 1, 1)]
    (by intro p hp; fin_cases hp <;> exact ⟨by omega, by omega, by omega, by omega⟩)
  have t1 : ((h : ℤ) - 1 - 1).toNat = h - 2 := by omega
  have t2 : ((h : ℤ) - 1).toNat = h - 1 := by omega
  unfold neighbour_states
  rw [hrow0]
  simp only [Option.bind_eq_bind, Option.some_bind, hlen, hwl]
  split_ifs <;> first
    | (exfalso; omega)
    | (rw [hrd]; simp [t1, t2])

/-- Bottom-right corner branch of `neighbour_states`, evaluated. -/
theorem nb_bottomright {sys : System} {h w : Nat} (R : Rect sys h w)
    (hh : 2 ≤ h) (hw : 2 ≤ w) :
    neighbour_states sys (w - 1, h - 1) =
      some [cell sys (h - 2) (w - 2), cell sys (h - 2) (w - 1),
        cell sys (h - 1) (w - 2)] := by
  have hlen : sys.length = h := R.1
  have hrow0 : pyget sys 0 = some (sys.getD 0 []) :=
    pyget_in sys 0 [] le_rfl (by omega)
  have hwl : (sys.getD 0 []).length = w := row_len R (by omega)
  have hrd := reads_eq sys R [((h : ℤ) - 1 - 1, (w : ℤ) - 1 - 1),
      ((h : ℤ) - 1 - 1, (w : ℤ) - 1), ((h : ℤ) - 1, (w : ℤ) - 1 - 1)]
    (by intro p hp; fin_cases hp <;> exact ⟨by omega, by omega, by omega, by omega⟩)
  have t1 : ((h : ℤ) - 1 - 1).toNat = h - 2 := by omega
  have t2 : ((h : ℤ) - 1).toNat = h - 1 := by omega
  have t3 : ((w : ℤ) - 1 - 1).toNat = w - 2 := by omega
  have t4 : ((w : ℤ) - 1).toNat = w - 1 := by omega
  unfold neighbour_states
  rw [hrow0]
  simp only [Option.bind_eq_bind, Option.some_bind, hlen, hwl]
  split_ifs <;> first
    | (exfalso; omega)
    | (rw [hrd]; simp [t1, t2, t3, t4])

/-- Top-edge branch of `neighbour_states`, evaluated. -/
theorem nb_topedge {sys : System} {h w x : Nat} (R : Rect sys h w)
    (hh : 2 ≤ h) (hx1 : 1 ≤ x) (hx2 : x + 1 < w) :
    neighbour_states sys (x, 0) =
      some [cell sys 0 (x - 1), cell sys 0 (x + 1), cell sys 1 (x - 1),
        cell sys 1 x, cell sys 1 (x + 1)] := by
  have hlen : sys.length = h := R.1
  have hrow0 : pyget sys 0 = some (sys.getD 0 []) :=
    pyget_in sys 0 [] le_rfl (by omega)
  have hwl : (sys.getD 0 []).length = w := row_len R (by omega)
  have hrd := reads_eq sys R [((0 : ℤ), (x : ℤ) - 1), (0, (x : ℤ) + 1),
      (1, (x : ℤ) - 1), (1, (x : ℤ)), (1, (x : ℤ) + 1)]
    (by intro p hp; fin_cases hp <;> exact ⟨by omega, by omega, by omega, by omega⟩)
  have t1 : ((x : ℤ) - 1).toNat = x - 1 := by omega
  have t2 : ((x : ℤ) + 1).toNat = x + 1 := by omega
  unfold neighbour_states
  rw [hrow0]
  simp only [Option.bind_eq_bind, Option.some_bind, hlen, hwl]
  split_ifs <;> first
    | (exfalso; omega)
    | (rw [hrd]; simp [t1, t2])

/-- Bottom-edge branch of `neighbour_states`, evaluated. -/
theorem nb_bottomedge {sys : System} {h w x : Nat} (R : Rect sys h w)
    (hh : 2 ≤ h) (hx1 : 1 ≤ x) (hx2 : x + 1 < w) :
    neighbour_states sys (x, h - 1) =
      some [cell sys (h - 2) (x - 1), cell sys (h - 2) x, cell sys (h - 2) (x + 1),
        cell sys (h - 1) (x - 1), cell sys (h - 1) (x + 1)] := by
  have hlen : sys.length = h := R.1
  have hrow0 : pyget sys 0 = some (sys.getD 0 []) :=
    pyget_in sys 0 [] le_rfl (by omega)
  have hwl : (sys.getD 0 []).length = w := row_len R (by omega)
  have hrd := reads_eq sys R [((h : ℤ) - 1 - 1, (x : ℤ) - 1),
      ((h : ℤ) - 1 - 1, (x : ℤ)), ((h : ℤ) - 1 - 1, (x : ℤ) + 1),
      ((h : ℤ) - 1, (x : ℤ) - 1), ((h : ℤ) - 1, (x : ℤ) + 1)]
    (by intro p hp; fin_cases hp <;> exact ⟨by omega, by omega, by omega, by omega⟩)
  have t1 : ((h : ℤ) - 1 - 1).toNat = h - 2 := by omega
  have t2 : ((h : ℤ) - 1).toNat = h - 1 := by omega
  have t3 : ((x : ℤ) - 1).toNat = x - 1 := by omega
  have t4 : ((x : ℤ) + 1).toNat = x + 1 := by omega
  unfold neighbour_states
  rw [hrow0]
  simp only [Option.bind_eq_bind, Option.some_bind, hlen, hwl]
  split_ifs <;> first
    | (exfalso; omega)
    | (rw [hrd]; simp [t1, t2, t3, t4])

/-- Left-edge branch of `neighbour_states`, evaluated. -/
theorem nb_leftedge {sys : System} {h w y : Nat} (R : Rect sys h w)
    (hw : 2 ≤ w) (hy1 : 1 ≤ y) (hy2 : y + 1 < h) :
    neighbour_states sys (0, y) =
      some [cell sys (y - 1) 0, cell sys (y - 1) 1, cell sys y 1,
        cell sys (y + 1) 0, cell sys (y + 1) 1] := by
  have hlen : sys.length = h := R.1
  have hrow0 : pyget sys 0 = some (sys.getD 0 []) :=
    pyget_in sys 0 [] le_rfl (by omega)
  have hwl : (sys.getD 0 []).length = w := row_len R (by omega)
  have hrd := reads_eq sys R [((y : ℤ) - 1, 0), ((y : ℤ) - 1, 1),
      ((y : ℤ), 1), ((y : ℤ) + 1, 0), ((y : ℤ) + 1, 1)]
    (by intro p hp; fin_cases hp <;> exact ⟨by omega, by omega, by omega, by omega⟩)
  have t1 : ((y : ℤ) - 1).toNat = y - 1 := by omega
  have t2 : ((y : ℤ) + 1).toNat = y + 1 := by omega
  unfold neighbour_states
  rw [hrow0]
  simp only [Option.bind_eq_bind, Option.some_bind, hlen, hwl]
  split_ifs <;> first
    | (exfalso; omega)
    | (rw [hrd]; simp [t1, t2])

/-- Right-edge branch of `neighbour_states`, evaluated. -/
theorem nb_rightedge {sys : System} {h w y : Nat} (R : Rect sys h w)
    (hw : 2 ≤ w) (hy1 : 1 ≤ y) (hy2 : y + 1 < h) :
    neighbour_states sys (w - 1, y) =
      some [cell sys (y - 1) (w - 2), cell sys (y - 1) (w - 1), cell sys y (w - 2),
        cell sys (y + 1) (w - 2), cell sys (y + 1) (w - 1)] := by
  have hlen : sys.length = h := R.1
  have hrow0 : pyget sys 0 = some (sys.getD 0 []) :=
    pyget_in sys 0 [] le_rfl (by omega)
  have hwl : (sys.getD 0 []).length = w := row_len R (by omega)
  have hrd := reads_eq sys R [((y : ℤ) - 1, (w : ℤ) - 1 - 1),
      ((y : ℤ) - 1, (w : ℤ) - 1), ((y : ℤ), (w : ℤ) - 1 - 1),
      ((y : ℤ) + 1, (w : ℤ) - 1 - 1), ((y : ℤ) + 1, (w : ℤ) - 1)]
    (by intro p hp; fin_cases hp <;> exact ⟨by omega, by omega, by omega, by omega⟩)
  have t1 : ((y : ℤ) - 1).toNat = y - 1 := by omega
  have t2 : ((y : ℤ) + 1).toNat = y + 1 := by omega
  have t3 : ((w : ℤ) - 1 - 1).toNat = w - 2 := by omega
  have t4 : ((w : ℤ) - 1).toNat = w - 1 := by omega
  unfold neighbour_states
  rw [hrow0]
  simp only [Option.bind_eq_bind, Option.some_bind, hlen, hwl]
  split_ifs <;> first
    | (exfalso; omega)
    | (rw [hrd]; simp [t1, t2, t3, t4])

/-- Interior branch of `neighbour_states`, evaluated. -/
theorem nb_interior {sys : System} {h w x y : Nat} (R : Rect sys h w)
    (hx1 : 1 ≤ x) (hx2 : x + 1 < w) (hy1 : 1 ≤ y) (hy2 : y + 1 < h) :
    neighbour_states sys (x, y) =
      some [cell sys (y - 1) (x - 1), cell sys (y - 1) x, cell sys (y - 1) (x + 1),
        cell sys y (x - 1), cell sys y (x + 1),
        cell sys (y + 1) (x - 1), cell sys (y + 1) x, cell sys (y + 1) (x + 1)] := by
  have hlen : sys.length = h := R.1
  have hrow0 : pyget sys 0 = some (sys.getD 0 []) :=
    pyget_in sys 0 [] le_rfl (by omega)
  have hwl : (sys.getD 0 []).length = w := row_len R (by omega)
  have hrd := reads_eq sys R [((y : ℤ) - 1, (x : ℤ) - 1),
      ((y : ℤ) - 1, (x : ℤ)), ((y : ℤ) - 1, (x : ℤ) + 1),
      ((y : ℤ), (x : ℤ) - 1), ((y : ℤ), (x : ℤ) + 1),
      ((y : ℤ) + 1, (x : ℤ) - 1), ((y : ℤ) + 1, (x : ℤ)), ((y : ℤ) + 1, (x : ℤ) + 1)]
    (by intro p hp; fin_cases hp <;> exact ⟨by omega, by omega, by omega, by omega⟩)
  have t1 : ((y : ℤ) - 1).toNat = y - 1 := by omega
  have t2 : ((y : ℤ) + 1).toNat = y + 1 := by omega
  have t3 : ((x : ℤ) - 1).toNat = x - 1 := by omega
  have t4 : ((x : ℤ) + 1).toNat = x + 1 := by omega
  unfold neighbour_states
  rw [hrow0]
  simp only [Option.bind_eq_bind, Option.some_bind, hlen, hwl]
  split_ifs <;> first
    | (exfalso; omega)
    | (rw [hrd]; simp [t1, t2, t3, t4])

/-- Bottom-left corner of the clipped scan, evaluated. -/
theorem cl_bottomleft {sys : System} {h w : Nat} (R : Rect sys h w)
    (hh : 2 ≤ h) (hw : 2 ≤ w) :
    clipped_neighbours sys (0, h - 1) =
      [cell sys (h - 2) 0, cell sys (h - 2) 1, cell sys (h - 1) 1] := by
  have hlen : sys.length = h := R.1
  have hw0 : (sys.headD []).length = w := head_len R (by omega)
  have hch : ((h - 1 : ℕ) : ℤ) = (h : ℤ) - 1 := by omega
  simp only [clipped_neighbours, scan_offsets_eq, hlen, hw0, hch,
    Nat.cast_zero, Nat.cast_one, filterMap_cons_toList, List.filterMap_nil]
  norm_num
  simp [show 0 < w by omega, show 1 < w by omega, show 1 ≤ h by omega,
    show (1 : ℤ) ≤ (h : ℤ) - 1 by omega,
    show (h : ℤ) - 1 < (h : ℤ) + 1 by omega,
    show ((h : ℤ) - 1 + -1).toNat = h - 2 by omega]

/-- Bottom-right corner of the clipped scan, evaluated. -/
theorem cl_bottomright {sys : System} {h w : Nat} (R : Rect sys h w)
    (hh : 2 ≤ h) (hw : 2 ≤ w) :
    clipped_neighbours sys (w - 1, h - 1) =
      [cell sys (h - 2) (w - 2), cell sys (h - 2) (w - 1),
        cell sys (h - 1) (w - 2)] := by
  have hlen : sys.length = h := R.1
  have hw0 : (sys.headD []).length = w := head_len R (by omega)
  have hch : ((h - 1 : ℕ) : ℤ) = (h : ℤ) - 1 := by omega
  have hcw : ((w - 1 : ℕ) : ℤ) = (w : ℤ) - 1 := by omega
  simp only [clipped_neighbours, scan_offsets_eq, hlen, hw0, hch, hcw,
    Nat.cast_zero, Nat.cast_one, filterMap_cons_toList, List.filterMap_nil]
  norm_num
  simp [show 1 ≤ h by omega, show 1 ≤ w by omega,
    show (1 : ℤ) ≤ (h : ℤ) - 1 by omega, show (1 : ℤ) ≤ (w : ℤ) - 1 by omega,
    show (h : ℤ) - 1 < (h : ℤ) + 1 by omega,
    show (w : ℤ) - 1 < (w : ℤ) + 1 by omega,
    show ((h : ℤ) - 1 + -1).toNat = h - 2 by omega,
    show ((w : ℤ) - 1 + -1).toNat = w - 2 by omega]

/-- Top-edge case of the clipped scan, evaluated. -/
theorem cl_topedge {sys : System} {h w x : Nat} (R : Rect sys h w)
    (hh : 2 ≤ h) (hx1 : 1 ≤ x) (hx2 : x + 1 < w) :
    clipped_neighbours sys (x, 0) =
      [cell sys 0 (x - 1), cell sys 0 (x + 1), cell sys 1 (x - 1),
        cell sys 1 x, cell sys 1 (x + 1)] := by
  have hlen : sys.length = h := R.1
  have hw0 : (sys.headD []).length = w := head_len R (by omega)
  simp only [clipped_neighbours, scan_offsets_eq, hlen, hw0,
    Nat.cast_zero, Nat.cast_one, filterMap_cons_toList, List.filterMap_nil]
  norm_num
  simp [show 0 < h by omega, show 1 < h by omega,
    show (1 : ℤ) ≤ (x : ℤ) by omega, show (x : ℤ) + 1 < (w : ℤ) by omega,
    show x < w by omega,
    show ((x : ℤ) + -1).toNat = x - 1 by omega,
    show ((x : ℤ) + 1).toNat = x + 1 by omega]
  simp [hx1, show (x : ℤ) < (w : ℤ) + 1 by omega,
    show (0 : ℤ) ≤ (x : ℤ) + 1 by omega]

/-- Bottom-edge case of the clipped scan, evaluated. -/
theorem cl_bottomedge {sys : System} {h w x : Nat} (R : Rect sys h w)
    (hh : 2 ≤ h) (hx1 : 1 ≤ x) (hx2 : x + 1 < w) :
    clipped_neighbours sys (x, h - 1) =
      [cell sys (h - 2) (x - 1), cell sys (h - 2) x, cell sys (h - 2) (x + 1),
        cell sys (h - 1) (x - 1), cell sys (h - 1) (x + 1)] := by
  have hlen : sys.length = h := R.1
  have hw0 : (sys.headD []).length = w := head_len R (by omega)
  have hch : ((h - 1 : ℕ) : ℤ) = (h : ℤ) - 1 := by omega
  simp only [clipped_neighbours, scan_offsets_eq, hlen, hw0, hch,
    Nat.cast_zero, Nat.cast_one, filterMap_cons_toList, List.filterMap_nil]
  norm_num
  simp [show 1 ≤ h by omega, show (1 : ℤ) ≤ (h : ℤ) - 1 by omega,
    show (h : ℤ) - 1 < (h : ℤ) + 1 by omega,
    show (1 : ℤ) ≤ (x : ℤ) by omega, show (x : ℤ) + 1 < (w : ℤ) by omega,
    show x < w by omega,
    show ((h : ℤ) - 1 + -1).toNat = h - 2 by omega,
    show ((x : ℤ) + -1).toNat = x - 1 by omega,
    show ((x : ℤ) + 1).toNat = x + 1 by omega]
  simp [hx1, show (x : ℤ) < (w : ℤ) + 1 by omega,
    show (0 : ℤ) ≤ (x : ℤ) + 1 by omega]

/-- Left-edge case of the clipped scan, evaluated. -/
theorem cl_leftedge {sys : System} {h w y : Nat} (R : Rect sys h w)
    (hw : 2 ≤ w) (hy1 : 1 ≤ y) (hy2 : y + 1 < h) :
    clipped_neighbours sys (0, y) =
      [cell sys (y - 1) 0, cell sys (y - 1) 1, cell sys y 1,
        cell sys (y + 1) 0, cell sys (y + 1) 1] := by
  have hlen : sys.length = h := R.1
  have hw0 : (sys.headD []).length = w := head_len R (by omega)
  simp only [clipped_neighbours, scan_offsets_eq, hlen, hw0,
    Nat.cast_zero, Nat.cast_one, filterMap_cons_toList, List.filterMap_nil]
  norm_num
  simp [show 0 < w by omega, show 1 < w by omega,
    show (1 : ℤ) ≤ (y : ℤ) by omega, show (y : ℤ) + 1 < (h : ℤ) by omega,
    show y < h by omega,
    show ((y : ℤ) + -1).toNat = y - 1 by omega,
    show ((y : ℤ) + 1).toNat = y + 1 by omega]
  simp [hy1, show (y : ℤ) < (h : ℤ) + 1 by omega,
    show (0 : ℤ) ≤ (y : ℤ) + 1 by omega]

/-- Right-edge case of the clipped scan, evaluated. -/
theorem cl_rightedge {sys : System} {h w y : Nat} (R : Rect sys h w)
    (hw : 2 ≤ w) (hy1 : 1 ≤ y) (hy2 : y + 1 < h) :
    clipped_neighbours sys (w - 1, y) =
      [cell sys (y - 1) (w - 2), cell sys (y - 1) (w - 1), cell sys y (w - 2),
        cell sys (y + 1) (w - 2), cell sys (y + 1) (w - 1)] := by
  have hlen : sys.length = h := R.1
  have hw0 : (sys.headD []).length = w := head_len R (by omega)
  have hcw : ((w - 1 : ℕ) : ℤ) = (w : ℤ) - 1 := by omega
  simp only [clipped_neighbours, scan_offsets_eq, hlen, hw0, hcw,
    Nat.cast_zero, Nat.cast_one, filterMap_cons_toList, List.filterMap_nil]
  norm_num
  simp [show 1 ≤ w by omega, show (1 : ℤ) ≤ (w : ℤ) - 1 by omega,
    show (w : ℤ) - 1 < (w : ℤ) + 1 by omega,
    show (1 : ℤ) ≤ (y : ℤ) by omega, show (y : ℤ) + 1 < (h : ℤ) by omega,
    show y < h by omega,
    show ((w : ℤ) - 1 + -1).toNat = w - 2 by omega,
    show ((y : ℤ) + -1).toNat = y - 1 by omega,
    show ((y : ℤ) + 1).toNat = y + 1 by omega]
  simp [hy1, show (y : ℤ) < (h : ℤ) + 1 by omega,
    show (0 : ℤ) ≤ (y : ℤ) + 1 by omega]

/-- Interior case of the clipped scan, evaluated. -/
theorem cl_interior {sys : System} {h w x y : Nat} (R : Rect sys h w)
    (hx1 : 1 ≤ x) (hx2 : x + 1 < w) (hy1 : 1 ≤ y) (hy2 : y + 1 < h) :
    clipped_neighbours sys (x, y) =
      [cell sys (y - 1) (x - 1), cell sys (y - 1) x, cell sys (y - 1) (x + 1),
        cell sys y (x - 1), cell sys y (x + 1),
        cell sys (y + 1) (x - 1), cell sys (y + 1) x, cell sys (y + 1) (x + 1)] := by
  have hlen : sys.length = h := R.1
  have hw0 : (sys.headD []).length = w := head_len R (by omega)
  simp only [clipped_neighbours, scan_offsets_eq, hlen, hw0,
    Nat.cast_zero, Nat.cast_one, filterMap_cons_toList, List.filterMap_nil]
  norm_num
  simp [show (1 : ℤ) ≤ (x : ℤ) by omega, show (x : ℤ) + 1 < (w : ℤ) by omega,
    show (1 : ℤ) ≤ (y : ℤ) by omega, show (y : ℤ) + 1 < (h : ℤ) by omega,
    show x < w by omega, show y < h by omega,
    show ((x : ℤ) + -1).toNat = x - 1 by omega,
    show ((x : ℤ) + 1).toNat = x + 1 by omega,
    show ((y : ℤ) + -1).toNat = y - 1 by omega,
    show ((y : ℤ) + 1).toNat = y + 1 by omega]
  simp [hx1, hy1, show (x : ℤ) < (w : ℤ) + 1 by omega,
    show (y : ℤ) < (h : ℤ) + 1 by omega,
    show (0 : ℤ) ≤ (x : ℤ) + 1 by omega,
    show (0 : ℤ) ≤ (y : ℤ) + 1 by omega]

/-- Main equivalence: on a rectangular lattice with `h, w ≥ 2`, the branchy
`neighbour_states` succeeds at every in-bounds site and returns exactly the
spec's clipped row-major scan, whose length is 8 / 5 / 3 according to the
interior / edge / corner position of the site. -/
theorem neighbours_clipped_main {sys : System} {h w x y : Nat} (R : Rect sys h w)
    (hh : 2 ≤ h) (hw : 2 ≤ w) (hx : x < w) (hy : y < h) :
    neighbour_states sys (x, y) = some (clipped_neighbours sys (x, y)) ∧
    (1 ≤ x ∧ x + 1 < w ∧ 1 ≤ y ∧ y + 1 < h →
      (clipped_neighbours sys (x, y)).length = 8) ∧
    (((x = 0 ∨ x + 1 = w) ∧ 1 ≤ y ∧ y + 1 < h) ∨
      ((y = 0 ∨ y + 1 = h) ∧ 1 ≤ x ∧ x + 1 < w) →
      (clipped_neighbours sys (x, y)).length = 5) ∧
    ((x = 0 ∨ x + 1 = w) ∧ (y = 0 ∨ y + 1 = h) →
      (clipped_neighbours sys (x, y)).length = 3) := by
  refine ⟨?_, ?_, ?_, ?_⟩
  · by_cases hx0 : x = 0 <;> by_cases hxw : x = w - 1 <;>
      by_cases hy0 : y = 0 <;> by_cases hyh : y = h - 1 <;>
      first
      | (exfalso; omega)
      | rw [hx0, hy0, nb_topleft R hh hw, cl_topleft R hh hw]
      | rw [hxw, hy0, nb_topright R hh hw, cl_topright R hh hw]
      | rw [hx0, hyh, nb_bottomleft R hh hw, cl_bottomleft R hh hw]
      | rw [hxw, hyh, nb_bottomright R hh hw, cl_bottomright R hh hw]
      | rw [hy0, nb_topedge R hh (by omega) (by omega),
          cl_topedge R hh (by omega) (by omega)]
      | rw [hyh, nb_bottomedge R hh (by omega) (by omega),
          cl_bottomedge R hh (by omega) (by omega)]
      | rw [hx0, nb_leftedge R hw (by omega) (by omega),
          cl_leftedge R hw (by omega) (by omega)]
      | rw [hxw, nb_rightedge R hw (by omega) (by omega),
          cl_rightedge R hw (by omega) (by omega)]
      | rw [nb_interior R (by omega) (by omega) (by omega) (by omega),
          cl_interior R (by omega) (by omega) (by omega) (by omega)]
  · rintro ⟨hx1, hx2, hy1, hy2⟩
    rw [cl_interior R hx1 hx2 hy1 hy2]
    rfl
  · rintro (⟨hx0 | hxw, hy1, hy2⟩ | ⟨hy0 | hyh, hx1, hx2⟩)
    · rw [hx0, cl_leftedge R hw hy1 hy2]
      rfl
    · rw [show x = w - 1 by omega, cl_rightedge R hw hy1 hy2]
      rfl
    · rw [hy0, cl_topedge R hh hx1 hx2]
      rfl
    · rw [show y = h - 1 by omega, cl_bottomedge R hh hx1 hx2]
      rfl
  · rintro ⟨hx0 | hxw, hy0 | hyh⟩
    · rw [hx0, hy0, cl_topleft R hh hw]
      rfl
    · rw [hx0, show y = h - 1 by omega, cl_bottomleft R hh hw]
      rfl
    · rw [show x = w - 1 by omega, hy0, cl_topright R hh hw]
      rfl
    · rw [show x = w - 1 by omega, show y = h - 1 by omega,
        cl_bottomright R hh hw]
      rfl

/-- C1 (amended to lattices with height ≥ 2 and width ≥ 2; on 1-row,
1-column and 1×1 lattices the code raises `IndexError` instead — see the
counterexample): for every rectangular lattice with `h, w ≥ 2` and every
in-bounds site, `neighbour_states` returns exactly the clipped row-major
scan — rows `row-1..row+1`, columns `column-1..column+1` in increasing
order, skipping the center and out-of-bounds cells — and consequently
interior sites yield 8 neighbours, edge non-corner sites yield 5, and
corner sites yield 3. -/
theorem C1_neighbour_states_clipped {sys : System} {h w x y : Nat}
    (R : Rect sys h w) (hh : 2 ≤ h) (hw : 2 ≤ w) (hx : x < w) (hy : y < h) :
    neighbour_states sys (x, y) = some (clipped_neighbours sys (x, y)) ∧
    (1 ≤ x ∧ x + 1 < w ∧ 1 ≤ y ∧ y + 1 < h →
      (clipped_neighbours sys (x, y)).length = 8) ∧
    (((x = 0 ∨ x + 1 = w) ∧ 1 ≤ y ∧ y + 1 < h) ∨
      ((y = 0 ∨ y + 1 = h) ∧ 1 ≤ x ∧ x + 1 < w) →
      (clipped_neighbours sys (x, y)).length = 5) ∧
    ((x = 0 ∨ x + 1 = w) ∧ (y = 0 ∨ y + 1 = h) →
      (clipped_neighbours sys (x, y)).length = 3) :=
  neighbours_clipped_main R hh hw hx hy

/-- C1 witness: the equivalence and the interior neighbour count at a
concrete 3×3 lattice and its center site. -/
theorem C1_witness :
    neighbour_states [[1, 0, 0], [0, 1, 0], [1, 1, 1]] (1, 1) =
      some (clipped_neighbours [[1, 0, 0], [0, 1, 0], [1, 1, 1]] (1, 1)) ∧
      (clipped_neighbours [[1, 0, 0], [0, 1, 0], [1, 1, 1]] (1, 1)).length = 8 := by
  have hR : Rect [[1, 0, 0], [0, 1, 0], [1, 1, 1]] 3 3 := ⟨rfl, by decide⟩
  have hc := C1_neighbour_states_clipped hR (by norm_num) (by norm_num)
    (show (1 : Nat) < 3 by norm_num) (show (1 : Nat) < 3 by norm_num)
  exact ⟨hc.1, hc.2.1 ⟨by norm_num, by norm_num, by norm_num, by norm_num⟩⟩

/-- Counting the two possible values of a binary list covers its length. -/
theorem count_pair {l : List Nat} {a b : Nat} (hab : a ≠ b)
    (hl : ∀ v ∈ l, v = a ∨ v = b) : l.count a + l.count b = l.length := by
  induction l with
  | nil => rfl
  | cons c t ih =>
    have ht := ih fun v hv => hl v (List.mem_cons_of_mem c hv)
    rcases hl c (List.mem_cons_self c t) with rfl | rfl
    · rw [List.count_cons_self, List.count_cons_of_ne (Ne.symm hab)]
      simpa using by omega
    · rw [List.count_cons_self, List.count_cons_of_ne hab]
      simpa using by omega

/-- Every in-bounds `cell` of a binary rectangular lattice is `0` or `1`. -/
theorem cell_val {sys : System} {h w : Nat} (R : Rect sys h w) {r c : Nat}
    (hr : r < h) (hc : c < w)
    (hvals : ∀ row ∈ sys, ∀ v ∈ row, v = 0 ∨ v = 1) :
    cell sys r c = 0 ∨ cell sys r c = 1 := by
  have hlen : sys.length = h := R.1
  have hrow : sys.getD r [] ∈ sys := getD_mem_of_lt sys r [] (by omega)
  have hwl : (sys.getD r []).length = w := R.2 _ hrow
  exact hvals _ hrow _ (getD_mem_of_lt _ c 0 (by omega))

/-- Every element of the clipped scan is an in-bounds `cell` of the grid. -/
theorem clipped_mem {sys : System} {h w : Nat} (R : Rect sys h w)
    (hh : 1 ≤ h) {x y : Nat} {v : State}
    (hv : v ∈ clipped_neighbours sys (x, y)) :
    ∃ r c, r < h ∧ c < w ∧ v = cell sys r c := by
  have hlen : sys.length = h := R.1
  have hw0 : (sys.headD []).length = w := head_len R hh
  unfold clipped_neighbours at hv
  rw [List.mem_filterMap] at hv
  obtain ⟨d, _, hfd⟩ := hv
  simp only [hlen, hw0] at hfd
  revert hfd
  split_ifs with hcond
  · intro hfd
    obtain ⟨_, h1, h2, h3, h4⟩ := hcond
    exact ⟨((y : ℤ) + d.1).toNat, ((x : ℤ) + d.2).toNat, by omega, by omega,
      (Option.some.inj hfd).symm⟩
  · intro hfd
    cases hfd

/-- C6 (amended to lattices with height ≥ 2 and width ≥ 2; on a 1×1 lattice
both functions raise `IndexError` instead — see the counterexample): for
every rectangular binary lattice with `h, w ≥ 2` and every in-bounds site,
the two `like_neighbours` counts add up to the neighbour count, and
`energy_difference` returns `likes_old - likes_new`, which equals
`2 * likes_old - neighbour_count`. -/
theorem C6_energy_identities {sys : System} {h w x y : Nat} (R : Rect sys h w)
    (hh : 2 ≤ h) (hw : 2 ≤ w) (hx : x < w) (hy : y < h)
    (hvals : ∀ row ∈ sys, ∀ v ∈ row, v = 0 ∨ v = 1) :
    ∃ ns likes_old likes_new,
      neighbour_states sys (x, y) = some ns ∧
      like_neighbours sys (x, y) (cell sys y x) = some likes_old ∧
      like_neighbours sys (x, y) (pyNot (cell sys y x)) = some likes_new ∧
      likes_old + likes_new = ns.length ∧
      energy_difference sys (x, y) = some ((likes_old : ℤ) - (likes_new : ℤ)) ∧
      (likes_old : ℤ) - (likes_new : ℤ) =
        2 * (likes_old : ℤ) - (ns.length : ℤ) := by
  obtain ⟨hns, -, -, -⟩ := neighbours_clipped_main R hh hw hx hy
  set ns := clipped_neighbours sys (x, y) with hnsdef
  have hcell : pyget2 sys (y : ℤ) (x : ℤ) = some (cell sys y x) := by
    have hp := pyget2_cell R (r := (y : ℤ)) (c := (x : ℤ))
      (by omega) (by omega) (by omega) (by omega)
    simpa using hp
  have hspin := cell_val R hy hx hvals
  have hne : cell sys y x ≠ pyNot (cell sys y x) := by
    rcases hspin with hv | hv <;> rw [hv] <;> simp [pyNot]
  have hcover : ∀ v ∈ ns, v = cell sys y x ∨ v = pyNot (cell sys y x) := by
    intro v hvns
    obtain ⟨r, c, hr, hc, rfl⟩ := clipped_mem R (by omega) hvns
    have hvv := cell_val R hr hc hvals
    rcases hspin with hs | hs <;> rcases hvv with hv | hv <;>
      simp [hs, hv, pyNot]
  have hcount := count_pair hne hcover
  have hlo : like_neighbours sys (x, y) (cell sys y x) =
      some (ns.count (cell sys y x)) := by
    unfold like_neighbours
    rw [hns]
    rfl
  have hln : like_neighbours sys (x, y) (pyNot (cell sys y x)) =
      some (ns.count (pyNot (cell sys y x))) := by
    unfold like_neighbours
    rw [hns]
    rfl
  refine ⟨ns, ns.count (cell sys y x), ns.count (pyNot (cell sys y x)),
    hns, hlo, hln, hcount, ?_, by omega⟩
  simp [energy_difference, hcell, hlo, hln]

/-- C6 witness: the identities at a concrete 3×3 lattice and its center. -/
theorem C6_witness :
    ∃ ns likes_old likes_new,
      neighbour_states [[1, 0, 0], [0, 1, 0], [1, 1, 1]] (1, 1) = some ns ∧
      like_neighbours [[1, 0, 0], [0, 1, 0], [1, 1, 1]] (1, 1)
        (cell [[1, 0, 0], [0, 1, 0], [1, 1, 1]] 1 1) = some likes_old ∧
      like_neighbours [[1, 0, 0], [0, 1, 0], [1, 1, 1]] (1, 1)
        (pyNot (cell [[1, 0, 0], [0, 1, 0], [1, 1, 1]] 1 1)) = some likes_new ∧
      likes_old + likes_new = ns.length ∧
      energy_difference [[1, 0, 0], [0, 1, 0], [1, 1, 1]] (1, 1) =
        some ((likes_old : ℤ) - (likes_new : ℤ)) ∧
      (likes_old : ℤ) - (likes_new : ℤ) =
        2 * (likes_old : ℤ) - (ns.length : ℤ) :=
  C6_energy_identities (h := 3) (w := 3) ⟨rfl, by decide⟩ (by norm_num)
    (by norm_num) (show (1 : Nat) < 3 by norm_num)
    (show (1 : Nat) < 3 by norm_num) (by decide)

example : neighbour_states [[0]] (0, 0) = none := by decide

example : neighbour_states [[0, 1], [0, 0]] (0, 0) = some [1, 0, 0] := by decide

example : neighbour_states [[1, 0, 0], [0, 1, 0], [1, 1, 1]] (1, 1) =
    some [1, 0, 0, 0, 0, 1, 1, 1] := by decide

example : clipped_neighbours [[1, 0, 0], [0, 1, 0], [1, 1, 1]] (1, 1) =
    [1, 0, 0, 0, 0, 1, 1, 1] := by decide

example : clipped_neighbours [[0]] (0, 0) = [] := by decide

example : energy_difference [[0, 1], [0, 0]] (0, 0) = some 1 := by decide

example : (random_site 1 2 rng1).map (fun p => p.1) = some (0, 1) := by decide

/-- C4: the claim (with the spec) says `neighbour_states` on a 1×1 lattice
returns the empty neighbour list and is valid, not an error; the code's
top-left-corner branch instead evaluates `sys[0][1]` and raises `IndexError`
(modelled as `none`), while the spec's clipped scan yields `[]`. -/
theorem C4_one_by_one_raises :
    neighbour_states [[0]] (0, 0) = none ∧ clipped_neighbours [[0]] (0, 0) = [] := by
  decide

/-- C1 counterexample: on the 1-row lattice `[[0, 0]]` at the in-bounds site
`(0, 0)` the code raises `IndexError` (`none`) instead of producing the
clipped row-major scan `[0]`, so the claim fails for degenerate lattices. -/
theorem C1_counterexample :
    neighbour_states [[0, 0]] (0, 0) = none ∧
      clipped_neighbours [[0, 0]] (0, 0) = [0] := by
  decide

/-- C6 counterexample: on the non-empty lattice `[[1]]` (all values in
`{0, 1}`) at the in-bounds site `(0, 0)`, `like_neighbours` and
`energy_difference` raise `IndexError` (`none`) instead of returning the
claimed counts, so the claim fails for 1×1 lattices. -/
theorem C6_counterexample :
    like_neighbours [[1]] (0, 0) 1 = none ∧ energy_difference [[1]] (0, 0) = none := by
  decide

/-- C5: `successful_swap` implements the exact three-way branch: every
`delta_E ≤ 0` is accepted regardless of `T`; for `delta_E > 0` and `T ≤ 0`
it returns `false` without consuming a random draw (the returned stream is
the unadvanced input stream), and `T < 0` behaves identically to `T = 0`
(no normalization or clamping of `T`); for `delta_E > 0` and `T > 0` it
accepts exactly when the drawn `u` satisfies `u < exp(-delta_E / (k*T))`,
consuming one draw. (`k ≠ 0` keeps the denominator `k * T` nonzero, which
any actual evaluation of the exponential presupposes.) -/
theorem C5_three_way_branch (pexp : ℚ → ℚ) (k T : ℚ) (delta_E : ℤ) (g : RNG)
    (hk : k ≠ 0) :
    (delta_E ≤ 0 → successful_swap pexp (some k) delta_E T g = some (true, g)) ∧
    (0 < delta_E → T ≤ 0 →
      successful_swap pexp (some k) delta_E T g = some (false, g) ∧
      successful_swap pexp (some k) delta_E T g =
        successful_swap pexp (some k) delta_E 0 g) ∧
    (0 < delta_E → 0 < T →
      successful_swap pexp (some k) delta_E T g =
        some (decide ((pyrandom g).1 < pexp (-(delta_E : ℚ) / (k * T))),
          (pyrandom g).2)) := by
  refine ⟨fun hle => ?_, fun hpos hT => ⟨?_, ?_⟩, fun hpos hT => ?_⟩
  · simp [successful_swap, hle]
  · simp [successful_swap, not_le.mpr hpos, not_lt.mpr hT]
  · simp [successful_swap, not_le.mpr hpos, not_lt.mpr hT]
  · have hkT : k * T ≠ 0 := mul_ne_zero hk (ne_of_gt hT)
    rcases hpr : pyrandom g with ⟨u, g1⟩
    simp only [successful_swap, if_neg (not_le.mpr hpos), if_pos hT, hpr, if_neg hkT]
    by_cases hu : u < pexp (-(delta_E : ℚ) / (k * T)) <;> simp [hu]

/-- C5 witness: the three-way branch instantiated at a concrete input. -/
theorem C5_witness :
    successful_swap (fun _ => (1 : ℚ)) (some 1) (-1) 5 rng0 = some (true, rng0) :=
  (C5_three_way_branch (fun _ => (1 : ℚ)) 1 5 (-1) rng0 (by norm_num)).1 (by decide)

/-- C9: the acceptance branch of `successful_swap` reads the module-global
name `k`, which the script assigns only in its `__main__` block. With `k`
unbound (the imported-module scenario, `gk = none`), `delta_E > 0` and
`T > 0` raise `NameError` (`none`); for `delta_E ≤ 0` or `T ≤ 0` the result
never consults the global. -/
theorem C9_module_global_k (pexp : ℚ → ℚ) (delta_E : ℤ) (T : ℚ) (g : RNG) :
    (0 < delta_E → 0 < T → successful_swap pexp none delta_E T g = none) ∧
    ((delta_E ≤ 0 ∨ T ≤ 0) → ∀ gk gk' : Option ℚ,
      successful_swap pexp gk delta_E T g =
        successful_swap pexp gk' delta_E T g) := by
  constructor
  · intro hpos hT
    simp [successful_swap, not_le.mpr hpos, hT]
  · rintro (hle | hT) gk gk'
    · simp [successful_swap, hle]
    · simp [successful_swap, not_lt.mpr hT]

/-- C9 witness: the `NameError` case and the `k`-independence case at
concrete inputs. -/
theorem C9_witness :
    successful_swap (fun _ => (0 : ℚ)) none 1 1 rng0 = none ∧
      successful_swap (fun _ => (0 : ℚ)) (some 5) 1 0 rng0 =
        successful_swap (fun _ => (0 : ℚ)) (some 7) 1 0 rng0 :=
  ⟨(C9_module_global_k (fun _ => (0 : ℚ)) 1 1 rng0).1 (by norm_num) (by norm_num),
    (C9_module_global_k (fun _ => (0 : ℚ)) 1 0 rng0).2 (Or.inr le_rfl) (some 5) (some 7)⟩

/-- C3: `random_site(h, w)` draws its first component (used as the column)
from `[0, h)` and its second component (used by the sweep loop as the row
index) from `[0, w)`. With `h = 1`, `w = 2` and an all-one integer stream the
drawn site is `(0, 1)`: its row component `1` is not `< h = 1`, and the
sweep's first access `sys[1][0]` on the 1×2 lattice raises `IndexError`
(`none`), refuting the in-bounds claim. -/
theorem C3_swapped_bounds :
    (random_site 1 2 rng1).map (fun p => p.1) = some (0, 1) ∧
      pyget2 [[0, 0]] 1 0 = none ∧
      sweep_act ⟨1, 2, 0, none, fun _ => 0⟩ [[0, 0]] rng1 = none := by
  refine ⟨by decide, by decide, rfl⟩

/-- Draw lemma: `randint(0, m-1)` succeeds for positive `m`. -/
theorem randint0_pos (m : Nat) (g : RNG) (hm : m ≠ 0) :
    randint0 m g = some ((next_int g).1 % m, (next_int g).2) := by
  simp [randint0, hm]

/-- Under `SwapTotal`, `successful_swap` never raises. -/
theorem successful_swap_total {P : Params} (hP : SwapTotal P) (dE : ℤ)
    (g : RNG) :
    ∃ b g', successful_swap P.pexp P.gk dE P.T g = some (b, g') := by
  by_cases hle : dE ≤ 0
  · exact ⟨true, g, by simp [successful_swap, hle]⟩
  · by_cases hT : 0 < P.T
    · rcases hP with hT0 | ⟨kv, hkv, hkv0⟩
      · exact absurd hT (not_lt.mpr hT0)
      · have hkT : kv * P.T ≠ 0 := mul_ne_zero hkv0 (ne_of_gt hT)
        rcases hpr : pyrandom g with ⟨u, g1⟩
        by_cases hu : u < P.pexp (-(dE : ℚ) / (kv * P.T))
        · exact ⟨true, g1, by simp [successful_swap, hle, hT, hkv, hkT, hpr, hu]⟩
        · exact ⟨false, g1, by simp [successful_swap, hle, hT, hkv, hkT, hpr, hu]⟩
    · exact ⟨false, g, by simp [successful_swap, hle, hT]⟩

/-- On an `h × w` grid with `h, w ≥ 2`, `energy_difference` never raises at
an in-bounds site. -/
theorem energy_difference_total {sys : System} {h w x y : Nat}
    (R : Rect sys h w) (hh : 2 ≤ h) (hw : 2 ≤ w) (hx : x < w) (hy : y < h) :
    ∃ d, energy_difference sys (x, y) = some d := by
  obtain ⟨hns, -, -, -⟩ := neighbours_clipped_main R hh hw hx hy
  have hcell : pyget2 sys (y : ℤ) (x : ℤ) = some (cell sys y x) := by
    have hp := pyget2_cell R (r := (y : ℤ)) (c := (x : ℤ))
      (by omega) (by omega) (by omega) (by omega)
    simpa using hp
  refine ⟨((clipped_neighbours sys (x, y)).count (cell sys y x) : ℤ) -
    ((clipped_neighbours sys (x, y)).count (pyNot (cell sys y x)) : ℤ), ?_⟩
  simp [energy_difference, hcell, like_neighbours, hns]

/-- An in-bounds single-site store preserves rectangularity. -/
theorem Rect_set2 {sys : System} {h w : Nat} (R : Rect sys h w) {r : Nat}
    (hr : r < h) (c v : Nat) : Rect (set2 sys r c v) h w := by
  obtain ⟨hlen, hrow⟩ := R
  refine ⟨by simp [set2, hlen], ?_⟩
  intro row hmem
  rcases List.mem_or_eq_of_mem_set hmem with hold | rfl
  · exact hrow _ hold
  · rw [List.length_set]
    exact hrow _ (getD_mem_of_lt sys r [] (by omega))

/-- For a square lattice with `h = w ≥ 2` and a total sampler, one attempted
update never raises, and an accepted flip writes within bounds. -/
theorem sweep_act_total (P : Params) {sys : System} (g : RNG)
    (hh2 : 2 ≤ P.h) (hhw : P.h = P.w) (hP : SwapTotal P)
    (R : Rect sys P.h P.w) :
    ∃ act g', sweep_act P sys g = some (act, g') ∧
      ∀ x y v, act = some (x, y, v) → x < P.w ∧ y < P.h := by
  have hh0 : P.h ≠ 0 := by omega
  have hw0 : P.w ≠ 0 := by omega
  set a := (next_int g).1 % P.h with hadef
  set g1 := (next_int g).2 with hg1def
  set b := (next_int g1).1 % P.w with hbdef
  set g2 := (next_int g1).2 with hg2def
  have ha : a < P.h := Nat.mod_lt _ (by omega)
  have hb : b < P.w := Nat.mod_lt _ (by omega)
  have hsite : random_site P.h P.w g = some ((a, b), g2) := by
    simp [random_site, randint0_pos _ _ hh0, randint0_pos _ _ hw0]
  have hstate : random_state g2 =
      some ((next_int g2).1 % 2, (next_int g2).2) := randint0_pos 2 g2 (by norm_num)
  set s := (next_int g2).1 % 2 with hsdef
  set g3 := (next_int g2).2 with hg3def
  have hcur : pyget2 sys (b : ℤ) (a : ℤ) = some (cell sys b a) := by
    have hp := pyget2_cell R (r := (b : ℤ)) (c := (a : ℤ))
      (by omega) (by omega) (by omega) (by omega)
    simpa using hp
  by_cases hs : s = cell sys b a
  · refine ⟨none, g3, ?_, by simp⟩
    simp [sweep_act, hsite, hstate, hcur, hs]
  · obtain ⟨d, hd⟩ := energy_difference_total R (by omega) (by omega)
      (x := a) (y := b) (by omega) (by omega)
    obtain ⟨acc, g4, hsw⟩ := successful_swap_total hP d g3
    cases acc with
    | false =>
      refine ⟨none, g4, ?_, by simp⟩
      simp [sweep_act, hsite, hstate, hcur, hs, hd, hsw]
    | true =>
      refine ⟨some (a, b, pyNot (cell sys b a)), g4, ?_, ?_⟩
      · simp [sweep_act, hsite, hstate, hcur, hs, hd, hsw]
      · intro x y v hxy
        simp only [Option.some.injEq, Prod.mk.injEq] at hxy
        obtain ⟨rfl, rfl, -⟩ := hxy
        exact ⟨by omega, by omega⟩

/-- One loop iteration never raises for a square `h = w ≥ 2` lattice and a
total sampler; it increments `timestep`, preserves the lattice shape, and
appends one snapshot exactly at multiples of `w*h*10`. -/
theorem sweep_step_total (P : Params) (hh2 : 2 ≤ P.h) (hhw : P.h = P.w)
    (hP : SwapTotal P) (st : SimState) (R : Rect st.sys P.h P.w) :
    ∃ st', sweep_step P st = some st' ∧ Rect st'.sys P.h P.w ∧
      st'.timestep = st.timestep + 1 ∧
      st'.snapshots.length = st.snapshots.length +
        (if (st.timestep + 1) % (P.w * P.h * 10) = 0 then 1 else 0) := by
  obtain ⟨act, g', hact, hbnd⟩ := sweep_act_total P st.g hh2 hhw hP R
  cases act with
  | none =>
    have hstep : sweep_step P st = some ⟨st.sys,
        if (st.timestep + 1) % (P.w * P.h * 10) = 0 then st.snapshots ++ [st.sys]
        else st.snapshots, st.timestep + 1, g'⟩ := by
      simp [sweep_step, hact]
    refine ⟨_, hstep, R, rfl, ?_⟩
    split_ifs <;> simp
  | some xyv =>
    obtain ⟨x, y, v⟩ := xyv
    obtain ⟨hxw, hyh⟩ := hbnd x y v rfl
    have hR' : Rect (set2 st.sys y x v) P.h P.w := Rect_set2 R hyh x v
    have hstep : sweep_step P st = some ⟨set2 st.sys y x v,
        if (st.timestep + 1) % (P.w * P.h * 10) = 0 then
          st.snapshots ++ [set2 st.sys y x v]
        else st.snapshots, st.timestep + 1, g'⟩ := by
      simp [sweep_step, hact]
    refine ⟨_, hstep, hR', rfl, ?_⟩
    split_ifs <;> simp

/-- Sweep-loop invariant: starting from any state whose lattice is a square
`h = w ≥ 2` grid, `n` iterations never raise, perform exactly `n` attempted
updates, keep the shape, and grow the snapshot list by one per multiple of
`w*h*10` crossed by the attempted-update counter. -/
theorem steps_inv (P : Params) (hh2 : 2 ≤ P.h) (hhw : P.h = P.w)
    (hP : SwapTotal P) :
    ∀ n (st : SimState), Rect st.sys P.h P.w →
    ∃ st', steps P n st = some st' ∧ Rect st'.sys P.h P.w ∧
      st'.timestep = st.timestep + n ∧
      st'.snapshots.length = st.snapshots.length +
        ((st.timestep + n) / (P.w * P.h * 10) -
          st.timestep / (P.w * P.h * 10)) := by
  intro n
  induction n with
  | zero =>
    intro st hR
    exact ⟨st, rfl, hR, by omega, by simp⟩
  | succ n ih =>
    intro st hR
    obtain ⟨st1, h1, hR1, ht1, hs1⟩ := sweep_step_total P hh2 hhw hP st hR
    obtain ⟨st', h', hR', ht', hs'⟩ := ih st1 hR1
    refine ⟨st', by simp [steps, h1, h'], hR', by omega, ?_⟩
    rw [hs', hs1, ht1]
    have e1 := Nat.succ_div st.timestep (P.w * P.h * 10)
    have hmono : (st.timestep + 1) / (P.w * P.h * 10) ≤
        (st.timestep + 1 + n) / (P.w * P.h * 10) :=
      Nat.div_le_div_right (by omega)
    have harr : st.timestep + (n + 1) = st.timestep + 1 + n := by omega
    rw [harr]
    by_cases hdv : (P.w * P.h * 10) ∣ (st.timestep + 1)
    · have hmod : (st.timestep + 1) % (P.w * P.h * 10) = 0 :=
        Nat.dvd_iff_mod_eq_zero.mp hdv
      rw [if_pos hmod, if_pos hdv] at *
      omega
    · have hmod : ¬(st.timestep + 1) % (P.w * P.h * 10) = 0 := fun hc =>
        hdv (Nat.dvd_iff_mod_eq_zero.mpr hc)
      rw [if_neg hmod, if_neg hdv] at *
      omega

/-- C7 (amended to square lattices `h = w ≥ 2` with a non-raising sampler; for
`h ≠ w` the swapped `random_site` bounds let the sweep raise `IndexError` —
see the counterexample): the sweep loop performs exactly `max_mcs * w * h`
attempted updates, captures one snapshot before the loop and one at each
multiple of `10 * w * h` of the attempted-update counter, so for `max_mcs` a
multiple of 10 the snapshot count is `max_mcs / 10 + 1`. -/
theorem C7_budget_and_snapshots (P : Params) (sys0 : System) (g : RNG)
    (max_mcs : Nat) (hh2 : 2 ≤ P.h) (hhw : P.h = P.w) (hP : SwapTotal P)
    (R : Rect sys0 P.h P.w) (hdvd : 10 ∣ max_mcs) :
    ∃ st, steps P (max_mcs * P.w * P.h) (initState sys0 g) = some st ∧
      st.timestep = max_mcs * P.w * P.h ∧
      st.snapshots.length = max_mcs / 10 + 1 := by
  obtain ⟨st, hst, -, ht, hlen⟩ :=
    steps_inv P hh2 hhw hP (max_mcs * P.w * P.h) (initState sys0 g) R
  refine ⟨st, hst, by simpa [initState] using ht, ?_⟩
  have hM0 : 0 < P.w * P.h * 10 := by
    have h1 : 0 < P.w := by omega
    have h2 : 0 < P.h := by omega
    positivity
  have hN : max_mcs * P.w * P.h = (max_mcs / 10) * (P.w * P.h * 10) := by
    obtain ⟨q, rfl⟩ := hdvd
    have h10 : 10 * q / 10 = q := by omega
    rw [h10]
    ring
  have hdivN : (max_mcs * P.w * P.h) / (P.w * P.h * 10) = max_mcs / 10 := by
    rw [hN, Nat.mul_div_cancel _ hM0]
  simp [initState] at hlen
  omega

/-- C7 witness: a 2×2 lattice, `T = 0`, `max_mcs = 10`. -/
theorem C7_witness :
    ∃ st, steps ⟨2, 2, 0, none, fun _ => 0⟩ (10 * 2 * 2)
        (initState [[0, 0], [0, 0]] rng0) = some st ∧
      st.timestep = 10 * 2 * 2 ∧
      st.snapshots.length = 10 / 10 + 1 :=
  C7_budget_and_snapshots ⟨2, 2, 0, none, fun _ => 0⟩ [[0, 0], [0, 0]] rng0 10
    (by norm_num) rfl (Or.inl le_rfl) ⟨rfl, by decide⟩ ⟨1, rfl⟩

/-- C7 counterexample: with `h = 1`, `w = 2` (both ≥ 1) and an all-one
integer stream, the first attempted update draws site `(0, 1)` and the sweep
raises `IndexError`, so the run neither completes its budget nor produces
the claimed snapshot count. -/
theorem C7_counterexample :
    steps ⟨1, 2, 0, none, fun _ => 0⟩ (10 * 2 * 1) (initState [[0, 0]] rng1) =
      none ∧
    run_simulation 1 2 1 0 10 (some [[0, 0]]) false none (fun _ => 0) rng1 =
      none := by
  constructor <;> rfl

/-- C2 (amended: `run_simulation(h, w, k, T, max_mcs, initial_sys)` — the
source's parameter order, with `k` before `T` — terminates after its fixed
iteration budget of `max_mcs * w * h` attempted updates, hands the snapshot
sequence to `animate_sim`, and returns `None`, not the snapshot sequence;
stated for square lattices `h = w ≥ 2` with a non-raising sampler, where no
branch of the loop can raise). -/
theorem C2_run_simulation_returns_none (h w : Nat) (k T : ℚ) (max_mcs : Nat)
    (sys0 : System) (save : Bool) (gk : Option ℚ) (pexp : ℚ → ℚ) (g : RNG)
    (hh2 : 2 ≤ h) (hhw : h = w) (R : Rect sys0 h w)
    (hP : SwapTotal ⟨h, w, T, gk, pexp⟩) :
    run_simulation h w k T max_mcs (some sys0) save gk pexp g = some none ∧
    ∃ st, steps ⟨h, w, T, gk, pexp⟩ (max_mcs * w * h) (initState sys0 g) =
        some st ∧
      st.timestep = max_mcs * w * h := by
  obtain ⟨st, hst, -, ht, -⟩ := steps_inv ⟨h, w, T, gk, pexp⟩ hh2 hhw hP
    (max_mcs * w * h) (initState sys0 g) R
  exact ⟨by simp [run_simulation, hst], st, hst, by simpa [initState] using ht⟩

/-- C2 witness: a 2×2 lattice with an empty budget. -/
theorem C2_witness :
    run_simulation 2 2 1 0 0 (some [[0, 0], [0, 0]]) false none (fun _ => 0)
      rng0 = some none ∧
    ∃ st, steps ⟨2, 2, 0, none, fun _ => 0⟩ (0 * 2 * 2)
        (initState [[0, 0], [0, 0]] rng0) = some st ∧
      st.timestep = 0 * 2 * 2 :=
  C2_run_simulation_returns_none 2 2 1 0 0 [[0, 0], [0, 0]] false none
    (fun _ => 0) rng0 (by norm_num) rfl ⟨rfl, by decide⟩ (Or.inl le_rfl)

/-- C2 counterexample: a completed run returns Python `None` (inner `none`),
never the snapshot sequence. -/
theorem C2_counterexample :
    run_simulation 2 2 1 0 1 (some [[0, 0], [0, 0]]) false (some 1)
      (fun _ => 0) rng0 = some none := by
  rfl

/-- Variant of the in-range default read for `getElem?`. -/
theorem getElem?_eq_some_getD {α : Type} (l : List α) (n : Nat) (d : α)
    (h : n < l.length) : l[n]? = some (l.getD n d) := by
  rw [← List.get?_eq_getElem?]
  exact get?_eq_some_getD l n d h

/-- Reading an old address is unaffected by extending the heap. -/
theorem readRow_append {H : Heap} (L : List (List State)) {a : Nat}
    (h : a < H.length) : readRow (H ++ L) a = readRow H a :=
  List.getD_append H L [] a h

/-- Reading an old grid is unaffected by extending the heap. -/
theorem readSys_append {H : Heap} (L : List (List State)) {r : SysRef}
    (hb : ∀ a ∈ r, a < H.length) : readSys (H ++ L) r = readSys H r :=
  List.map_congr_left fun a ha => readRow_append L (hb a ha)

/-- Freshly allocated rows read back as the allocated contents. -/
theorem readSys_alloc (H : Heap) (rows : System) :
    readSys (H ++ rows) (List.range' H.length rows.length) = rows := by
  induction rows generalizing H with
  | nil => rfl
  | cons q qs ih =>
    show readSys (H ++ q :: qs) (List.range' H.length (qs.length + 1)) = q :: qs
    rw [List.range'_succ]
    unfold readSys
    simp only [List.map_cons]
    congr 1
    · show readRow (H ++ q :: qs) H.length = q
      unfold readRow
      rw [List.getD_append_right H (q :: qs) [] H.length le_rfl]
      simp
    · have e1 : H ++ q :: qs = (H ++ [q]) ++ qs := by simp
      have e2 : H.length + 1 = (H ++ [q]).length := by simp
      rw [e1, e2]
      exact ih (H ++ [q])

/-- Mutating one row object leaves every other address unchanged. -/
theorem readRow_set_ne {H : Heap} {a a' : Nat} (row : List State)
    (hne : a' ≠ a) : readRow (H.set a row) a' = readRow H a' := by
  unfold readRow
  rw [List.getD_eq_getElem?_getD, List.getD_eq_getElem?_getD,
    List.getElem?_set_ne (Ne.symm hne)]

/-- Mutating an allocated row object stores the new row. -/
theorem readRow_set_self {H : Heap} {a : Nat} (row : List State)
    (ha : a < H.length) : readRow (H.set a row) a = row := by
  unfold readRow
  rw [List.getD_eq_getElem?_getD, List.getElem?_set_self ha]
  rfl

/-- A grid that does not contain the mutated address reads back unchanged. -/
theorem readSys_set_frame {H : Heap} {a : Nat} (row : List State)
    {s : SysRef} (hnot : a ∉ s) : readSys (H.set a row) s = readSys H s :=
  List.map_congr_left fun b hb =>
    readRow_set_ne row fun hba => hnot (hba ▸ hb)

/-- The heap-level store `sys[y][x] = v` through a duplicate-free, allocated
reference reads back as the value-level functional update. -/
theorem readSys_setSite (H : Heap) (r : SysRef) (y x v : Nat)
    (hnd : r.Nodup) (hy : y < r.length) (hb : ∀ a ∈ r, a < H.length) :
    readSys (setSite H r y x v) r = set2 (readSys H r) y x v := by
  have haH : r.getD y 0 < H.length := hb _ (getD_mem_of_lt r y 0 hy)
  have hry : r[y]? = some (r.getD y 0) := getElem?_eq_some_getD r y 0 hy
  apply List.ext_getElem?
  intro n
  by_cases hn : n = y
  · subst hn
    have hL : (readSys (setSite H r n x v) r)[n]? =
        some (readRow (setSite H r n x v) (r.getD n 0)) := by
      unfold readSys
      rw [List.getElem?_map, hry]
      rfl
    have hset : readRow (setSite H r n x v) (r.getD n 0) =
        (readRow H (r.getD n 0)).set x v := by
      show readRow (H.set (r.getD n 0) ((readRow H (r.getD n 0)).set x v))
        (r.getD n 0) = (readRow H (r.getD n 0)).set x v
      exact readRow_set_self _ haH
    have hmid : (readSys H r).getD n [] = readRow H (r.getD n 0) := by
      unfold readSys
      rw [List.getD_eq_getElem?_getD, List.getElem?_map, hry]
      rfl
    have hR : (set2 (readSys H r) n x v)[n]? =
        some (((readSys H r).getD n []).set x v) := by
      unfold set2
      exact List.getElem?_set_self (by unfold readSys; rw [List.length_map]; exact hy)
    rw [hL, hset, hR, hmid]
  · by_cases hlt : n < r.length
    · have hrn : r[n]? = some (r.getD n 0) := getElem?_eq_some_getD r n 0 hlt
      have hne : r.getD n 0 ≠ r.getD y 0 := by
        intro hc
        have hgn : r.get ⟨n, hlt⟩ = r.getD n 0 :=
          Option.some.inj ((List.get?_eq_get hlt).symm.trans
            (get?_eq_some_getD r n 0 hlt))
        have hgy : r.get ⟨y, hy⟩ = r.getD y 0 :=
          Option.some.inj ((List.get?_eq_get hy).symm.trans
            (get?_eq_some_getD r y 0 hy))
        have heq : (⟨n, hlt⟩ : Fin r.length) = ⟨y, hy⟩ :=
          hnd.get_inj_iff.mp (by rw [hgn, hgy, hc])
        exact hn (by simpa using congrArg Fin.val heq)
      have hL : (readSys (setSite H r y x v) r)[n]? =
          some (readRow H (r.getD n 0)) := by
        unfold readSys
        rw [List.getElem?_map, hrn]
        show some (readRow (setSite H r y x v) (r.getD n 0)) = _
        congr 1
        show readRow (H.set (r.getD y 0) ((readRow H (r.getD y 0)).set x v))
          (r.getD n 0) = readRow H (r.getD n 0)
        exact readRow_set_ne _ hne
      have hR : (set2 (readSys H r) y x v)[n]? =
          some (readRow H (r.getD n 0)) := by
        unfold set2
        rw [List.getElem?_set_ne fun hc => hn hc.symm]
        unfold readSys
        rw [List.getElem?_map, hrn]
        rfl
      rw [hL, hR]
    · have hnone1 : (readSys (setSite H r y x v) r)[n]? = none := by
        apply List.getElem?_eq_none
        unfold readSys
        rw [List.length_map]
        omega
      have hnone2 : (set2 (readSys H r) y x v)[n]? = none := by
        apply List.getElem?_eq_none
        unfold set2 readSys
        rw [List.length_set, List.length_map]
        omega
      rw [hnone1, hnone2]

/-- One heap-level iteration simulates one value-level iteration: both
succeed, and the heap state still reads back as the value state. -/
theorem hstep_sim (P : Params) (hh2 : 2 ≤ P.h) (hhw : P.h = P.w)
    (hP : SwapTotal P) {hst : HState} {pst : SimState}
    (hsim : Sim hst pst) (R : Rect pst.sys P.h P.w) :
    ∃ hst' pst', hstep P hst = some hst' ∧ sweep_step P pst = some pst' ∧
      Sim hst' pst' := by
  obtain ⟨hread, hsnaps, htime, hg, hnd, hbr, hbs, hdisj⟩ := hsim
  obtain ⟨act, g', hact, hbnd⟩ := sweep_act_total P pst.g hh2 hhw hP R
  have hacth : sweep_act P (readSys hst.H hst.r) hst.g = some (act, g') := by
    rw [hread, hg]
    exact hact
  have hrlen : hst.r.length = P.h := by
    have hl := congrArg List.length hread
    simp only [readSys, List.length_map] at hl
    rw [R.1] at hl
    exact hl
  cases act with
  | none =>
    have hpstep : sweep_step P pst = some ⟨pst.sys,
        if (pst.timestep + 1) % (P.w * P.h * 10) = 0 then
          pst.snapshots ++ [pst.sys] else pst.snapshots,
        pst.timestep + 1, g'⟩ := by
      simp [sweep_step, hact]
    by_cases hcap : (pst.timestep + 1) % (P.w * P.h * 10) = 0
    · have hcap' : (hst.timestep + 1) % (P.w * P.h * 10) = 0 := by
        rw [htime]
        exact hcap
      have hhstep : hstep P hst = some ⟨hst.H ++ readSys hst.H hst.r, hst.r,
          hst.snaps ++ [List.range' hst.H.length (readSys hst.H hst.r).length],
          hst.timestep + 1, g'⟩ := by
        simp [hstep, hacth, hcap', deepcopyH, allocRows]
      refine ⟨_, _, hhstep, hpstep, ?_, ?_, by simpa using htime, rfl, ?_, ?_, ?_, ?_⟩
      · show readSys (hst.H ++ readSys hst.H hst.r) hst.r = _
        rw [readSys_append _ hbr, hread]
      · show (hst.snaps ++ [_]).map (readSys (hst.H ++ readSys hst.H hst.r)) = _
        rw [List.map_append]
        simp only [List.map_cons, List.map_nil]
        rw [List.map_congr_left fun s hs => readSys_append _ (hbs s hs), hsnaps]
        rw [readSys_alloc, hread]
        simp [hcap]
      · exact hnd
      · show ∀ a ∈ hst.r, a < (hst.H ++ readSys hst.H hst.r).length
        intro a ha
        rw [List.length_append]
        exact Nat.lt_of_lt_of_le (hbr a ha) (Nat.le_add_right _ _)
      · show ∀ s ∈ hst.snaps ++ [_], ∀ a ∈ s, a < (hst.H ++ _).length
        intro s hs a ha
        rw [List.length_append]
        rcases List.mem_append.mp hs with hold | hnew
        · exact Nat.lt_of_lt_of_le (hbs s hold a ha) (Nat.le_add_right _ _)
        · rw [List.mem_singleton] at hnew
          subst hnew
          rw [List.mem_range'_1] at ha
          simpa [readSys] using ha.2
      · show ∀ s ∈ hst.snaps ++ [_], ∀ a ∈ s, a ∉ hst.r
        intro s hs a ha
        rcases List.mem_append.mp hs with hold | hnew
        · exact hdisj s hold a ha
        · rw [List.mem_singleton] at hnew
          subst hnew
          rw [List.mem_range'_1] at ha
          intro hain
          exact absurd (hbr a hain) (by omega)
    · have hcap' : ¬(hst.timestep + 1) % (P.w * P.h * 10) = 0 := by
        rw [htime]
        exact hcap
      have hhstep : hstep P hst = some ⟨hst.H, hst.r, hst.snaps,
          hst.timestep + 1, g'⟩ := by
        simp [hstep, hacth, hcap']
      refine ⟨_, _, hhstep, hpstep, ?_, ?_, by simpa using htime, rfl,
        hnd, hbr, hbs, hdisj⟩
      · simpa [hcap] using hread
      · simpa [hcap] using hsnaps
  | some xyv =>
    obtain ⟨x, y, v⟩ := xyv
    obtain ⟨hxw, hyh⟩ := hbnd x y v rfl
    have hyr : y < hst.r.length := by omega
    have hpstep : sweep_step P pst = some ⟨set2 pst.sys y x v,
        if (pst.timestep + 1) % (P.w * P.h * 10) = 0 then
          pst.snapshots ++ [set2 pst.sys y x v] else pst.snapshots,
        pst.timestep + 1, g'⟩ := by
      simp [sweep_step, hact]
    have hmut : readSys (setSite hst.H hst.r y x v) hst.r = set2 pst.sys y x v := by
      rw [readSys_setSite _ _ _ _ _ hnd hyr hbr, hread]
    have haddr : hst.r.getD y 0 ∈ hst.r := getD_mem_of_lt hst.r y 0 hyr
    have hframe : ∀ s ∈ hst.snaps,
        readSys (setSite hst.H hst.r y x v) s = readSys hst.H s := by
      intro s hs
      apply readSys_set_frame
      intro hain
      exact hdisj s hs _ hain haddr
    have hlen1 : (setSite hst.H hst.r y x v).length = hst.H.length := by
      simp [setSite]
    by_cases hcap : (pst.timestep + 1) % (P.w * P.h * 10) = 0
    · have hcap' : (hst.timestep + 1) % (P.w * P.h * 10) = 0 := by
        rw [htime]
        exact hcap
      have hhstep : hstep P hst = some
          ⟨setSite hst.H hst.r y x v ++ readSys (setSite hst.H hst.r y x v) hst.r,
          hst.r,
          hst.snaps ++ [List.range' (setSite hst.H hst.r y x v).length
            (readSys (setSite hst.H hst.r y x v) hst.r).length],
          hst.timestep + 1, g'⟩ := by
        simp [hstep, hacth, hcap', deepcopyH, allocRows]
      have hbr1 : ∀ a ∈ hst.r, a < (setSite hst.H hst.r y x v).length := by
        intro a ha
        rw [hlen1]
        exact hbr a ha
      refine ⟨_, _, hhstep, hpstep, ?_, ?_, by simpa using htime, rfl, ?_, ?_, ?_, ?_⟩
      · show readSys (setSite hst.H hst.r y x v ++ _) hst.r = _
        rw [readSys_append _ hbr1, hmut]
      · show (hst.snaps ++ [_]).map (readSys (setSite hst.H hst.r y x v ++ _)) = _
        rw [List.map_append]
        simp only [List.map_cons, List.map_nil]
        rw [List.map_congr_left fun s hs =>
          readSys_append _ (fun a ha => by rw [hlen1]; exact hbs s hs a ha)]
        rw [List.map_congr_left hframe, hsnaps, readSys_alloc, hmut]
        simp [hcap]
      · exact hnd
      · intro a ha
        rw [List.length_append]
        exact Nat.lt_of_lt_of_le (hbr1 a ha) (Nat.le_add_right _ _)
      · intro s hs a ha
        rw [List.length_append]
        rcases List.mem_append.mp hs with hold | hnew
        · refine Nat.lt_of_lt_of_le ?_ (Nat.le_add_right _ _)
          rw [hlen1]
          exact hbs s hold a ha
        · rw [List.mem_singleton] at hnew
          subst hnew
          rw [List.mem_range'_1] at ha
          simpa [readSys] using ha.2
      · intro s hs a ha
        rcases List.mem_append.mp hs with hold | hnew
        · exact hdisj s hold a ha
        · rw [List.mem_singleton] at hnew
          subst hnew
          rw [List.mem_range'_1] at ha
          intro hain
          have := hbr a hain
          rw [← hlen1] at this
          omega
    · have hcap' : ¬(hst.timestep + 1) % (P.w * P.h * 10) = 0 := by
        rw [htime]
        exact hcap
      have hhstep : hstep P hst = some ⟨setSite hst.H hst.r y x v, hst.r,
          hst.snaps, hst.timestep + 1, g'⟩ := by
        simp [hstep, hacth, hcap']
      refine ⟨_, _, hhstep, hpstep, ?_, ?_, by simpa using htime, rfl,
        hnd, ?_, ?_, hdisj⟩
      · simpa [hcap] using hmut
      · simp only [hcap, if_false]
        rw [List.map_congr_left hframe]
        exact hsnaps
      · intro a ha
        rw [hlen1]
        exact hbr a ha
      · intro s hs a ha
        rw [hlen1]
        exact hbs s hs a ha

/-- The heap run simulates the value run over any number of iterations. -/
theorem hsteps_sim (P : Params) (hh2 : 2 ≤ P.h) (hhw : P.h = P.w)
    (hP : SwapTotal P) :
    ∀ n {hst : HState} {pst : SimState}, Sim hst pst →
      Rect pst.sys P.h P.w →
    ∃ hst' pst', hsteps P n hst = some hst' ∧ steps P n pst = some pst' ∧
      Sim hst' pst' := by
  intro n
  induction n with
  | zero =>
    intro hst pst hsim hR
    exact ⟨hst, pst, rfl, rfl, hsim⟩
  | succ n ih =>
    intro hst pst hsim hR
    obtain ⟨hst1, pst1, h1, p1, hsim1⟩ := hstep_sim P hh2 hhw hP hsim hR
    obtain ⟨pst1', p1', hR1, -, -⟩ := sweep_step_total P hh2 hhw hP pst hR
    have hpeq : pst1' = pst1 := by
      rw [p1'] at p1
      exact Option.some.inj p1
    subst hpeq
    obtain ⟨hst', pst', h', p', hsim'⟩ := ih hsim1 hR1
    exact ⟨hst', pst', by simp [hsteps, h1, h'], by simp [steps, p1', p'], hsim'⟩

/-- The loop-entry heap state of a run simulates the value-level loop entry,
for any well-formed caller grid. -/
theorem hinit_sim {H0 : Heap} {r0 : SysRef} {sys0 : System} (g : RNG)
    (hread : readSys H0 r0 = sys0) (hnd : r0.Nodup)
    (hb : ∀ a ∈ r0, a < H0.length) :
    Sim (hinit H0 r0 g) (initState sys0 g) := by
  refine ⟨?_, ?_, rfl, rfl, hnd, ?_, ?_, ?_⟩
  · show readSys (H0 ++ readSys H0 r0) r0 = sys0
    rw [readSys_append _ hb, hread]
  · show [(deepcopyH H0 r0).2].map (readSys (H0 ++ readSys H0 r0)) = [sys0]
    simp only [List.map_cons, List.map_nil]
    show [readSys (H0 ++ readSys H0 r0)
      (List.range' H0.length (readSys H0 r0).length)] = [sys0]
    rw [readSys_alloc, hread]
  · intro a ha
    show a < (H0 ++ readSys H0 r0).length
    rw [List.length_append]
    exact Nat.lt_of_lt_of_le (hb a ha) (Nat.le_add_right _ _)
  · intro s hs a ha
    have hs' : s ∈ [(deepcopyH H0 r0).2] := hs
    rw [List.mem_singleton] at hs'
    subst hs'
    have ha' : a ∈ List.range' H0.length (readSys H0 r0).length := ha
    rw [List.mem_range'_1] at ha'
    show a < (H0 ++ readSys H0 r0).length
    rw [List.length_append]
    exact ha'.2
  · intro s hs a ha hain
    have hs' : s ∈ [(deepcopyH H0 r0).2] := hs
    rw [List.mem_singleton] at hs'
    subst hs'
    have ha' : a ∈ List.range' H0.length (readSys H0 r0).length := ha
    rw [List.mem_range'_1] at ha'
    exact absurd (hb a hain) (by omega)

/-- A caller grid allocated in an empty heap yields a simulating loop entry. -/
theorem hinit0_sim (sys0 : System) (g : RNG) :
    Sim (hinit0 sys0 g) (initState sys0 g) := by
  unfold hinit0
  apply hinit_sim
  · show readSys ([] ++ sys0) (List.range' ([] : Heap).length sys0.length) = sys0
    exact readSys_alloc [] sys0
  · exact List.nodup_range' _ _
  · intro a ha
    have ha' : a ∈ List.range' ([] : Heap).length sys0.length := ha
    show a < ([] ++ sys0).length
    rw [List.mem_range'_1] at ha'
    simpa using ha'.2

/-- The sweep loop splits at any intermediate iteration count. -/
theorem steps_add (P : Params) (m k : Nat) :
    ∀ st, steps P (m + k) st = (steps P m st).bind (steps P k) := by
  induction m with
  | zero =>
    intro st
    rw [Nat.zero_add]
    rfl
  | succ m ih =>
    intro st
    rw [show m + 1 + k = (m + k) + 1 from by omega]
    show (sweep_step P st).bind (steps P (m + k)) = _
    cases h : sweep_step P st with
    | none =>
      show none.bind (steps P (m + k)) =
        ((sweep_step P st).bind (steps P m)).bind (steps P k)
      rw [h]
      rfl
    | some st1 =>
      show steps P (m + k) st1 = (steps P (m + 1) st).bind (steps P k)
      rw [ih st1]
      show _ = ((sweep_step P st).bind (steps P m)).bind (steps P k)
      rw [h]
      rfl

/-- One loop iteration only ever appends to the snapshot list. -/
theorem sweep_step_snapshots {P : Params} {st st' : SimState}
    (h : sweep_step P st = some st') :
    ∃ tail, st'.snapshots = st.snapshots ++ tail := by
  cases hact : sweep_act P st.sys st.g with
  | none =>
    rw [sweep_step, hact] at h
    cases h
  | some ag =>
    obtain ⟨act, g'⟩ := ag
    cases act with
    | none =>
      have hstep2 : sweep_step P st = some ⟨st.sys,
          if (st.timestep + 1) % (P.w * P.h * 10) = 0 then
            st.snapshots ++ [st.sys] else st.snapshots,
          st.timestep + 1, g'⟩ := by
        simp [sweep_step, hact]
      rw [hstep2] at h
      cases Option.some.inj h
      refine ⟨if (st.timestep + 1) % (P.w * P.h * 10) = 0 then [st.sys] else [],
        ?_⟩
      dsimp only
      split_ifs <;> simp
    | some xyv =>
      obtain ⟨x, y, v⟩ := xyv
      have hstep2 : sweep_step P st = some ⟨set2 st.sys y x v,
          if (st.timestep + 1) % (P.w * P.h * 10) = 0 then
            st.snapshots ++ [set2 st.sys y x v] else st.snapshots,
          st.timestep + 1, g'⟩ := by
        simp [sweep_step, hact]
      rw [hstep2] at h
      cases Option.some.inj h
      refine ⟨if (st.timestep + 1) % (P.w * P.h * 10) = 0 then
        [set2 st.sys y x v] else [], ?_⟩
      dsimp only
      split_ifs <;> simp

/-- Any number of iterations only ever appends to the snapshot list. -/
theorem steps_snapshots_append (P : Params) :
    ∀ n {st st' : SimState}, steps P n st = some st' →
    ∃ tail, st'.snapshots = st.snapshots ++ tail := by
  intro n
  induction n with
  | zero =>
    intro st st' h
    cases Option.some.inj h
    exact ⟨[], by simp⟩
  | succ n ih =>
    intro st st' h
    cases h1 : sweep_step P st with
    | none =>
      rw [steps, h1] at h
      cases h
    | some st1 =>
      rw [steps, h1] at h
      have h2 : steps P n st1 = some st' := h
      obtain ⟨t1, ht1⟩ := sweep_step_snapshots h1
      obtain ⟨t2, ht2⟩ := ih h2
      exact ⟨t1 ++ t2, by rw [ht2, ht1, List.append_assoc]⟩

/-- The heap-level iteration never rebinds the live grid reference. -/
theorem hstep_r {P : Params} {hst hst' : HState}
    (h : hstep P hst = some hst') : hst'.r = hst.r := by
  cases hact : sweep_act P (readSys hst.H hst.r) hst.g with
  | none =>
    rw [hstep, hact] at h
    cases h
  | some ag =>
    obtain ⟨act, g'⟩ := ag
    rw [hstep, hact] at h
    have h' : (if (hst.timestep + 1) % (P.w * P.h * 10) = 0 then _ else _) =
        some hst' := h
    split_ifs at h' <;> (cases Option.some.inj h'; rfl)

/-- The heap-level run never rebinds the live grid reference. -/
theorem hsteps_r (P : Params) :
    ∀ n {hst hst' : HState}, hsteps P n hst = some hst' → hst'.r = hst.r := by
  intro n
  induction n with
  | zero =>
    intro hst hst' h
    cases Option.some.inj h
    rfl
  | succ n ih =>
    intro hst hst' h
    cases h1 : hstep P hst with
    | none =>
      rw [hsteps, h1] at h
      cases h
    | some hst1 =>
      rw [hsteps, h1] at h
      have h2 : hsteps P n hst1 = some hst' := h
      rw [ih h2, hstep_r h1]

/-- A successful subscript at a natural index is in range. -/
theorem pyget_nat_some {α : Type} {l : List α} {n : Nat} {v : α}
    (h : pyget l (n : ℤ) = some v) : n < l.length := by
  unfold pyget at h
  rw [if_pos (by omega : (0 : ℤ) ≤ (n : ℤ))] at h
  have he : ((n : ℤ)).toNat = n := by omega
  rw [he] at h
  by_contra hge
  rw [List.get?_eq_none.mpr (by omega)] at h
  cases h

/-- A successful nested subscript has an in-range row index. -/
theorem pyget2_row_lt {sys : System} {y x : Nat} {v : State}
    (h : pyget2 sys (y : ℤ) (x : ℤ) = some v) : y < sys.length := by
  unfold pyget2 at h
  cases hr : pyget sys (y : ℤ) with
  | none =>
    rw [hr] at h
    cases h
  | some row => exact pyget_nat_some hr

/-- An accepted flip produced by `sweep_act` writes to an in-range row: the
update is only reached after the read `sys[site[1]][site[0]]` succeeded. -/
theorem sweep_act_some_bounds {P : Params} {sys : System} {g : RNG}
    {act : Option (Nat × Nat × State)} {g' : RNG}
    (h : sweep_act P sys g = some (act, g')) :
    ∀ x y v, act = some (x, y, v) → y < sys.length := by
  intro x y v hact
  subst hact
  cases hrs : random_site P.h P.w g with
  | none => simp [sweep_act, hrs] at h
  | some sg =>
    obtain ⟨site, g1⟩ := sg
    rcases hq : random_state g1 with - | ⟨s2, g2⟩
    · simp [sweep_act, hrs, hq] at h
    · cases hcur : pyget2 sys (site.2 : ℤ) (site.1 : ℤ) with
      | none => simp [sweep_act, hrs, hq, hcur] at h
      | some cur =>
        have hy : site.2 < sys.length := pyget2_row_lt hcur
        by_cases hsc : s2 = cur
        · simp [sweep_act, hrs, hq, hcur, hsc] at h
        · cases hde : energy_difference sys site with
          | none => simp [sweep_act, hrs, hq, hcur, hsc, hde] at h
          | some dE =>
            cases hsw : successful_swap P.pexp P.gk dE P.T g2 with
            | none => simp [sweep_act, hrs, hq, hcur, hsc, hde, hsw] at h
            | some bg =>
              obtain ⟨acc, g4⟩ := bg
              cases acc with
              | false => simp [sweep_act, hrs, hq, hcur, hsc, hde, hsw] at h
              | true =>
                have h' : sweep_act P sys g =
                    some (some (site.1, site.2, pyNot cur), g4) := by
                  simp [sweep_act, hrs, hq, hcur, hsc, hde, hsw]
                rw [h'] at h
                obtain ⟨h1, -⟩ := Prod.mk.injEq .. ▸ Option.some.inj h
                obtain ⟨-, h2, -⟩ :=
                  Prod.mk.injEq .. ▸ Option.some.inj h1
                omega

/-- Frame property of one heap-level iteration, with no assumptions on the
lattice shape or sampler: if the iteration completes, well-formedness is
preserved and the values read back from the previously captured snapshots
are unchanged (the snapshot list only grows). -/
theorem hstep_frame {P : Params} {hst hst' : HState}
    (h : hstep P hst = some hst') (hWF : WF hst) :
    WF hst' ∧ ∃ tail, hst'.snaps.map (readSys hst'.H) =
      hst.snaps.map (readSys hst.H) ++ tail := by
  obtain ⟨hnd, hbr, hbs, hdisj⟩ := hWF
  have hcapWF : ∀ H1 : Heap, (∀ s ∈ hst.snaps, readSys H1 s = readSys hst.H s) →
      (∀ a ∈ hst.r, a < H1.length) →
      (∀ s ∈ hst.snaps, ∀ a ∈ s, a < H1.length) →
      ∀ g' : RNG,
      (hst' = ⟨H1 ++ readSys H1 hst.r, hst.r,
        hst.snaps ++ [List.range' H1.length (readSys H1 hst.r).length],
        hst.timestep + 1, g'⟩) →
      WF hst' ∧ ∃ tail, hst'.snaps.map (readSys hst'.H) =
        hst.snaps.map (readSys hst.H) ++ tail := by
    intro H1 hframe1 hbr1 hbs1 g' hst'eq
    subst hst'eq
    constructor
    · refine ⟨hnd, ?_, ?_, ?_⟩
      · intro a ha
        show a < (H1 ++ readSys H1 hst.r).length
        rw [List.length_append]
        exact Nat.lt_of_lt_of_le (hbr1 a ha) (Nat.le_add_right _ _)
      · intro s hs a ha
        show a < (H1 ++ readSys H1 hst.r).length
        rw [List.length_append]
        rcases List.mem_append.mp hs with hold | hnew
        · exact Nat.lt_of_lt_of_le (hbs1 s hold a ha) (Nat.le_add_right _ _)
        · rw [List.mem_singleton] at hnew
          subst hnew
          rw [List.mem_range'_1] at ha
          exact ha.2
      · intro s hs a ha
        rcases List.mem_append.mp hs with hold | hnew
        · exact hdisj s hold a ha
        · rw [List.mem_singleton] at hnew
          subst hnew
          rw [List.mem_range'_1] at ha
          intro hain
          exact absurd (hbr1 a hain) (by omega)
    · refine ⟨[readSys (H1 ++ readSys H1 hst.r)
        (List.range' H1.length (readSys H1 hst.r).length)], ?_⟩
      show (hst.snaps ++ [_]).map (readSys (H1 ++ readSys H1 hst.r)) = _
      rw [List.map_append]
      congr 1
      rw [List.map_congr_left fun s hs => readSys_append _ (hbs1 s hs)]
      exact List.map_congr_left hframe1
  have hnocapWF : ∀ H1 : Heap, (∀ s ∈ hst.snaps, readSys H1 s = readSys hst.H s) →
      (∀ a ∈ hst.r, a < H1.length) →
      (∀ s ∈ hst.snaps, ∀ a ∈ s, a < H1.length) →
      ∀ g' : RNG,
      (hst' = ⟨H1, hst.r, hst.snaps, hst.timestep + 1, g'⟩) →
      WF hst' ∧ ∃ tail, hst'.snaps.map (readSys hst'.H) =
        hst.snaps.map (readSys hst.H) ++ tail := by
    intro H1 hframe1 hbr1 hbs1 g' hst'eq
    subst hst'eq
    refine ⟨⟨hnd, hbr1, hbs1, fun s hs a ha => hdisj s hs a ha⟩, [], ?_⟩
    rw [List.append_nil]
    exact List.map_congr_left hframe1
  cases hact : sweep_act P (readSys hst.H hst.r) hst.g with
  | none =>
    rw [hstep, hact] at h
    cases h
  | some ag =>
    obtain ⟨act, g'⟩ := ag
    cases act with
    | none =>
      by_cases hcap : (hst.timestep + 1) % (P.w * P.h * 10) = 0
      · have hhstep : hstep P hst = some ⟨hst.H ++ readSys hst.H hst.r, hst.r,
            hst.snaps ++ [List.range' hst.H.length (readSys hst.H hst.r).length],
            hst.timestep + 1, g'⟩ := by
          simp [hstep, hact, hcap, deepcopyH, allocRows]
        rw [hhstep] at h
        exact hcapWF hst.H (fun s _ => rfl) hbr hbs g' (Option.some.inj h).symm
      · have hhstep : hstep P hst = some ⟨hst.H, hst.r, hst.snaps,
            hst.timestep + 1, g'⟩ := by
          simp [hstep, hact, hcap]
        rw [hhstep] at h
        exact hnocapWF hst.H (fun s _ => rfl) hbr hbs g' (Option.some.inj h).symm
    | some xyv =>
      obtain ⟨x, y, v⟩ := xyv
      have hy : y < hst.r.length := by
        have hylt := sweep_act_some_bounds hact x y v rfl
        simpa [readSys] using hylt
      have haddr : hst.r.getD y 0 ∈ hst.r := getD_mem_of_lt hst.r y 0 hy
      have hlen1 : (setSite hst.H hst.r y x v).length = hst.H.length := by
        simp [setSite]
      have hframe1 : ∀ s ∈ hst.snaps,
          readSys (setSite hst.H hst.r y x v) s = readSys hst.H s := by
        intro s hs
        apply readSys_set_frame
        intro hain
        exact hdisj s hs _ hain haddr
      have hbr1 : ∀ a ∈ hst.r, a < (setSite hst.H hst.r y x v).length := by
        intro a ha
        rw [hlen1]
        exact hbr a ha
      have hbs1 : ∀ s ∈ hst.snaps, ∀ a ∈ s,
          a < (setSite hst.H hst.r y x v).length := by
        intro s hs a ha
        rw [hlen1]
        exact hbs s hs a ha
      by_cases hcap : (hst.timestep + 1) % (P.w * P.h * 10) = 0
      · have hhstep : hstep P hst = some
            ⟨setSite hst.H hst.r y x v ++
              readSys (setSite hst.H hst.r y x v) hst.r, hst.r,
            hst.snaps ++ [List.range' (setSite hst.H hst.r y x v).length
              (readSys (setSite hst.H hst.r y x v) hst.r).length],
            hst.timestep + 1, g'⟩ := by
          simp [hstep, hact, hcap, deepcopyH, allocRows]
        rw [hhstep] at h
        exact hcapWF (setSite hst.H hst.r y x v) hframe1 hbr1 hbs1 g'
          (Option.some.inj h).symm
      · have hhstep : hstep P hst = some ⟨setSite hst.H hst.r y x v, hst.r,
            hst.snaps, hst.timestep + 1, g'⟩ := by
          simp [hstep, hact, hcap]
        rw [hhstep] at h
        exact hnocapWF (setSite hst.H hst.r y x v) hframe1 hbr1 hbs1 g'
          (Option.some.inj h).symm

/-- Frame property of the heap-level run: the captured snapshots are a
read-stable, append-only sequence. -/
theorem hsteps_frame (P : Params) :
    ∀ n {hst hst' : HState}, hsteps P n hst = some hst' → WF hst →
    WF hst' ∧ ∃ tail, hst'.snaps.map (readSys hst'.H) =
      hst.snaps.map (readSys hst.H) ++ tail := by
  intro n
  induction n with
  | zero =>
    intro hst hst' h hWF
    cases Option.some.inj h
    exact ⟨hWF, [], by simp⟩
  | succ n ih =>
    intro hst hst' h hWF
    cases h1 : hstep P hst with
    | none =>
      rw [hsteps, h1] at h
      cases h
    | some hst1 =>
      rw [hsteps, h1] at h
      have h2 : hsteps P n hst1 = some hst' := h
      obtain ⟨hWF1, t1, ht1⟩ := hstep_frame h1 hWF
      obtain ⟨hWF', t2, ht2⟩ := ih h2 hWF1
      exact ⟨hWF', t1 ++ t2, by rw [ht2, ht1, List.append_assoc]⟩

/-- The heap-level run splits at any intermediate iteration count. -/
theorem hsteps_add (P : Params) (m k : Nat) :
    ∀ st, hsteps P (m + k) st = (hsteps P m st).bind (hsteps P k) := by
  induction m with
  | zero =>
    intro st
    rw [Nat.zero_add]
    rfl
  | succ m ih =>
    intro st
    rw [show m + 1 + k = (m + k) + 1 from by omega]
    show (hstep P st).bind (hsteps P (m + k)) = _
    cases h : hstep P st with
    | none =>
      show none.bind (hsteps P (m + k)) =
        ((hstep P st).bind (hsteps P m)).bind (hsteps P k)
      rw [h]
      rfl
    | some st1 =>
      show hsteps P (m + k) st1 = (hsteps P (m + 1) st).bind (hsteps P k)
      rw [ih st1]
      show _ = ((hstep P st).bind (hsteps P m)).bind (hsteps P k)
      rw [h]
      rfl

/-- The loop-entry heap state of a run on a caller grid is well-formed. -/
theorem hinit0_WF (sys0 : System) (g : RNG) : WF (hinit0 sys0 g) := by
  obtain ⟨-, -, -, -, hWF⟩ := hinit0_sim sys0 g
  exact hWF

/-- C8: every snapshot captured during a run is a fully independent copy
sharing no storage with the live lattice. In the heap model (rows are
mutable objects, `deepcopy` allocates fresh rows, an accepted flip mutates a
live row in place), whenever the run reaches iterations `m ≤ n`, the values
read back from the snapshots captured by iteration `m` are still exactly
those values at iteration `n`: later single-site mutations leave every
previously captured snapshot unchanged, and later captures only append.
No assumption on the lattice shape or the sampler is needed. -/
theorem C8_snapshots_immutable (P : Params) (sys0 : System) (g : RNG)
    (m n : Nat) (hmn : m ≤ n) {hm hn : HState}
    (h1 : hsteps P m (hinit0 sys0 g) = some hm)
    (h2 : hsteps P n (hinit0 sys0 g) = some hn) :
    (hn.snaps.map (readSys hn.H)).take (hm.snaps.map (readSys hm.H)).length =
      hm.snaps.map (readSys hm.H) := by
  have h3 : hsteps P (n - m) hm = some hn := by
    have e : m + (n - m) = n := by omega
    have hsplit := hsteps_add P m (n - m) (hinit0 sys0 g)
    rw [e, h2, h1] at hsplit
    exact hsplit.symm
  obtain ⟨hWFm, -⟩ := hsteps_frame P m h1 (hinit0_WF sys0 g)
  obtain ⟨-, tail, htail⟩ := hsteps_frame P (n - m) h3 hWFm
  rw [htail, List.take_left]

/-- C8 witness: on a 2×2 lattice with the all-zero stream and `T = 0`, the
initial snapshot still reads back unchanged after one attempted update. -/
theorem C8_witness :
    ((⟨[[0, 0], [0, 0], [0, 0], [0, 0]], [0, 1], [[2, 3]], 1,
        ⟨fun _ => 0, fun _ => 0, 3, 0⟩⟩ : HState).snaps.map
      (readSys (⟨[[0, 0], [0, 0], [0, 0], [0, 0]], [0, 1], [[2, 3]], 1,
        ⟨fun _ => 0, fun _ => 0, 3, 0⟩⟩ : HState).H)).take
      ((hinit0 [[0, 0], [0, 0]] rng0).snaps.map
        (readSys (hinit0 [[0, 0], [0, 0]] rng0).H)).length =
      (hinit0 [[0, 0], [0, 0]] rng0).snaps.map
        (readSys (hinit0 [[0, 0], [0, 0]] rng0).H) :=
  C8_snapshots_immutable ⟨2, 2, 0, none, fun _ => 0⟩ [[0, 0], [0, 0]] rng0 0 1
    (by norm_num) rfl rfl

/-- C10: a caller-supplied `initial_sys` is aliased directly by the engine
(the loop state keeps the caller's very reference, no copy is made), so
every accepted flip mutates the caller's grid object in place, and after
`n` attempted updates the caller's object reads back as the current
lattice state of the run — not the initial contents. Stated for the
non-raising regime (square lattice `h = w ≥ 2`, total sampler). -/
theorem C10_initial_sys_aliased (P : Params) (sys0 : System) (g : RNG)
    (hh2 : 2 ≤ P.h) (hhw : P.h = P.w) (hP : SwapTotal P)
    (R : Rect sys0 P.h P.w) (n : Nat) :
    ∃ hn pn, hsteps P n (hinit0 sys0 g) = some hn ∧
      steps P n (initState sys0 g) = some pn ∧
      hn.r = (allocRows [] sys0).2 ∧
      readSys hn.H hn.r = pn.sys := by
  have hsim0 : Sim (hinit0 sys0 g) (initState sys0 g) := hinit0_sim sys0 g
  have hR0 : Rect (initState sys0 g).sys P.h P.w := R
  obtain ⟨hn, pn, hhn, hpn, hsimn⟩ := hsteps_sim P hh2 hhw hP n hsim0 hR0
  obtain ⟨hr, -, -, -, -⟩ := hsimn
  refine ⟨hn, pn, hhn, hpn, ?_, hr⟩
  rw [hsteps_r P n hhn]
  rfl

/-- C10 witness: a 2×2 lattice, `T = 0`, one iteration. -/
theorem C10_witness :
    ∃ hn pn, hsteps ⟨2, 2, 0, none, fun _ => 0⟩ 1
        (hinit0 [[0, 0], [0, 0]] rng0) = some hn ∧
      steps ⟨2, 2, 0, none, fun _ => 0⟩ 1
        (initState [[0, 0], [0, 0]] rng0) = some pn ∧
      hn.r = (allocRows [] [[0, 0], [0, 0]]).2 ∧
      readSys hn.H hn.r = pn.sys :=
  C10_initial_sys_aliased ⟨2, 2, 0, none, fun _ => 0⟩ [[0, 0], [0, 0]] rng0
    (by norm_num) rfl (Or.inl le_rfl) ⟨rfl, by decide⟩ 1

